import Mathlib

/-!
Shallow embedding of the ENSF-300 assignment repository
(src/user_csv.py and src/design_project.py).

Text is modelled as `List Char`, Python floats as exact rationals `ℚ`
(the spec treats numeric values mathematically; no rounding happens inside
the computations), Python ints as `ℤ`, and Python exceptions as an
explicit `Except PyError` result.
-/

set_option autoImplicit false

/-- A parsed CSV field: `read_csv` stores either a float or a stripped string
(src/user_csv.py line 18). -/
inductive Cell where
  | num (q : ℚ)
  | str (s : List Char)
deriving DecidableEq, Repr

/-- The Python exceptions that the modelled code can raise. -/
inductive PyError where
  | fileNotFound
  | keyError
  | indexError
  | valueError
  | zeroDivisionError
  /-- `np.mean` of an empty sequence yields NaN, which `ℚ` cannot represent;
  it is modelled as this error value. -/
  | nanResult
deriving DecidableEq, Repr

instance {ε α : Type} [DecidableEq ε] [DecidableEq α] : DecidableEq (Except ε α) := fun a b =>
  match a, b with
  | Except.error e1, Except.error e2 =>
    if h : e1 = e2 then isTrue (by rw [h]) else isFalse (by intro hc; cases hc; exact h rfl)
  | Except.error _, Except.ok _ => isFalse (by intro hc; cases hc)
  | Except.ok _, Except.error _ => isFalse (by intro hc; cases hc)
  | Except.ok a1, Except.ok a2 =>
    if h : a1 = a2 then isTrue (by rw [h]) else isFalse (by intro hc; cases hc; exact h rfl)

/-- Python `str.strip()` is whitespace-trimming at both ends. -/
def isSpaceChar (c : Char) : Bool := c.isWhitespace

/-- Python `value.strip()` on a character list. -/
def trimChars (l : List Char) : List Char :=
  ((l.dropWhile isSpaceChar).reverse.dropWhile isSpaceChar).reverse

/-- Python `s.replace(c, '', 1)`: remove the first occurrence of `c`. -/
def removeFirst (c : Char) : List Char → List Char
  | [] => []
  | x :: xs => if x = c then xs else x :: removeFirst c xs

/-- Python `str.isdigit()` (ASCII model): non-empty and all digit characters. -/
def isdigitStr (l : List Char) : Bool := !l.isEmpty && l.all Char.isDigit

/-- Numeric value of a digit string, most significant digit first. -/
def digitsToNat (l : List Char) : ℕ := l.foldl (fun a c => 10 * a + (c.toNat - 48)) 0

/-- Value of a decimal literal made of digits with at most one dot
(the shape guaranteed by the guard in src/user_csv.py line 18); this is the
mathematical value Python's `float()` returns on such input. -/
def decimalVal (l : List Char) : ℚ :=
  let ip := l.takeWhile (fun c => c ≠ '.')
  match l.dropWhile (fun c => c ≠ '.') with
  | [] => (digitsToNat ip : ℚ)
  | _ :: fp => (digitsToNat ip : ℚ) + (digitsToNat fp : ℚ) / 10 ^ fp.length

/-- One field of src/user_csv.py line 18:
`float(value) if value.strip().replace('.', '', 1).isdigit() else value.strip()`. -/
def parseCell (value : List Char) : Cell :=
  let t := trimChars value
  if isdigitStr (removeFirst '.' t) then Cell.num (decimalVal t) else Cell.str t

/-- Python `line.split(',')`: split at every comma; never returns an empty list. -/
def splitCommas : List Char → List (List Char)
  | [] => [[]]
  | c :: cs =>
    match splitCommas cs with
    | [] => [[]]
    | r :: rs => if c = ',' then [] :: r :: rs else (c :: r) :: rs

/-- Python `file.readlines()` (src/user_csv.py line 14), with the trailing
newline of each line dropped: every later use of a field either strips it or
passes it to `float()`, both of which ignore surrounding whitespace, so the
dropped terminator is invisible to the rest of the program. -/
def pyLines : List Char → List (List Char)
  | [] => []
  | c :: cs =>
    if c = '\n' then [] :: pyLines cs
    else
      match pyLines cs with
      | [] => [[c]]
      | l :: ls => (c :: l) :: ls

/-- src/user_csv.py `read_csv`, given the file's contents: split into lines,
split each line at commas, parse each field; with `include_headers = false`
the row at index 0 is skipped. -/
def read_csv (content : List Char) (include_headers : Bool) : List (List Cell) :=
  let rows := (pyLines content).map (fun line => (splitCommas line).map parseCell)
  if include_headers then rows else rows.drop 1

/-- Insertion-ordered dictionary, modelling a Python `dict`. -/
abbrev Dict (α : Type) := List (Cell × α)

/-- Python `k in d`. -/
def dmem {α : Type} (d : Dict α) (k : Cell) : Bool := d.any (fun p => p.1 = k)

/-- Python `d[k] = v`: an existing key keeps its position and gets the new
value; a fresh key is appended at the end. -/
def dinsert {α : Type} (d : Dict α) (k : Cell) (v : α) : Dict α :=
  if dmem d k then d.map (fun p => if p.1 = k then (k, v) else p) else d ++ [(k, v)]

/-- Python `d[k]` as an `Option` (the callers that can fail check membership
first or are modelled with an explicit `KeyError`). -/
def dget? {α : Type} (d : Dict α) (k : Cell) : Option α :=
  (d.find? (fun p => p.1 = k)).map Prod.snd

/-- `row[0]`; rows produced by `splitCommas` are never empty, so the default
is unreachable on real data. -/
def rowKey (row : List Cell) : Cell := row.headD (Cell.str [])

/-- The dict comprehension of src/design_project.py lines 22-24:
`{row[0]: row[1:] for row in data[1:]}` applied to a list of rows. -/
def dictOfRows (rows : List (List Cell)) : Dict (List Cell) :=
  rows.foldl (fun d row => dinsert d (rowKey row) (row.drop 1)) []

/-- The data rows of a file as `merge_data` sees them: `read_csv` with
headers kept, then `[1:]`. -/
def dataRows (content : List Char) : List (List Cell) := (read_csv content true).drop 1

/-- The per-file key-to-fields mapping built by src/design_project.py
lines 22-24. -/
def fileDict (content : List Char) : Dict (List Cell) := dictOfRows (dataRows content)

/-- Sign handling of Python's numeric string conversions. -/
def stripSign (l : List Char) : ℤ × List Char :=
  match l with
  | '-' :: rest => (-1, rest)
  | '+' :: rest => (1, rest)
  | _ => (1, l)

/-- Continuation of a Python digit group after its first digit: further
digits, with single underscores allowed only between digits. -/
def validDigitPartAux : List Char → Bool
  | [] => true
  | '_' :: c :: rest => c.isDigit && validDigitPartAux rest
  | '_' :: [] => false
  | c :: rest => c.isDigit && validDigitPartAux rest

/-- A Python digit group (`digitpart`): at least one digit, with single
underscores allowed between digits (`int('1_0')` and `float('1_0.5')` are
legal, `'_1'`, `'1_'` and `'1__0'` are not). -/
def validDigitPart : List Char → Bool
  | [] => false
  | c :: rest => c.isDigit && validDigitPartAux rest

/-- Numeric value of a digit group, ignoring the grouping underscores. -/
def digitsValue (l : List Char) : ℕ := digitsToNat (l.filter (fun c => c ≠ '_'))

/-- The mantissa of a Python float literal split at its decimal point. -/
def mantissaParts (m : List Char) : List Char × Option (List Char) :=
  let ip := m.takeWhile (fun c => c ≠ '.')
  match m.dropWhile (fun c => c ≠ '.') with
  | [] => (ip, none)
  | _ :: fp => (ip, some fp)

/-- A valid Python float mantissa: digit groups around at most one decimal
point, with at least one digit overall. -/
def validMantissa (m : List Char) : Bool :=
  match (mantissaParts m).2 with
  | none => validDigitPart (mantissaParts m).1
  | some fp =>
    ((mantissaParts m).1.isEmpty || validDigitPart (mantissaParts m).1) &&
      (fp.isEmpty || validDigitPart fp) && !((mantissaParts m).1.isEmpty && fp.isEmpty)

/-- Value of a valid mantissa. -/
def mantissaVal (m : List Char) : ℚ :=
  match (mantissaParts m).2 with
  | none => (digitsValue (mantissaParts m).1 : ℚ)
  | some fp =>
    (digitsValue (mantissaParts m).1 : ℚ) +
      (digitsValue fp : ℚ) / 10 ^ (fp.filter (fun c => c ≠ '_')).length

/-- A Python float literal split at its exponent marker. -/
def splitExp (s : List Char) : List Char × Option (List Char) :=
  let m := s.takeWhile (fun c => c ≠ 'e' ∧ c ≠ 'E')
  match s.dropWhile (fun c => c ≠ 'e' ∧ c ≠ 'E') with
  | [] => (m, none)
  | _ :: es => (m, some es)

/-- A valid exponent suffix: optional sign followed by a digit group. -/
def validExpPart (es : List Char) : Bool := validDigitPart (stripSign es).2

/-- Value of a valid exponent suffix. -/
def expVal (es : List Char) : ℤ := (stripSign es).1 * (digitsValue (stripSign es).2 : ℤ)

/-- A valid Python float numeral after the sign: mantissa with an optional
exponent (`'1e3'`, `'1_0.2_5E-1_0'`, `'.5'`, `'5.'` are legal). -/
def validNumber (s : List Char) : Bool :=
  match (splitExp s).2 with
  | none => validMantissa (splitExp s).1
  | some es => validMantissa (splitExp s).1 && validExpPart es

/-- Value of a valid float numeral. -/
def numberVal (s : List Char) : ℚ :=
  match (splitExp s).2 with
  | none => mantissaVal (splitExp s).1
  | some es => mantissaVal (splitExp s).1 * (10 : ℚ) ^ expVal es

/-- The case-insensitive infinity and NaN spellings Python's `float()`
accepts after the sign. -/
def isInfNan (s : List Char) : Bool :=
  decide (s.map Char.toLower = ['i', 'n', 'f']) ||
    decide (s.map Char.toLower = ['i', 'n', 'f', 'i', 'n', 'i', 't', 'y']) ||
    decide (s.map Char.toLower = ['n', 'a', 'n'])

/-- Negate when the scanned sign was a minus. -/
def applySign (sg : ℤ) (q : ℚ) : ℚ := if sg < 0 then -q else q

/-- Python's builtin `float()` on a string (ASCII model): strips whitespace,
takes an optional sign, then accepts the inf/infinity/nan spellings
(case-insensitively) or a decimal numeral — digit groups with single
underscores between digits, an optional fraction and an optional exponent —
and raises `ValueError` otherwise. Infinities and NaN are accepted, as
Python accepts them, but their IEEE values are not representable in `ℚ`;
they are mapped to the value 0, and no theorem in this development depends
on the stored value of such a field, only on whether the conversion
succeeds. -/
def pyFloatStr (s : List Char) : Except PyError ℚ :=
  let t := trimChars s
  let p := stripSign t
  if isInfNan p.2 then Except.ok 0
  else if validNumber p.2 then Except.ok (applySign p.1 (numberVal p.2))
  else Except.error PyError.valueError

/-- Python `float(x)` on a parsed field: a float stays itself, a string goes
through string conversion. -/
def pyFloat : Cell → Except PyError ℚ
  | Cell.num q => Except.ok q
  | Cell.str s => pyFloatStr s

/-- Truncation toward zero, the behaviour of Python `int()` on a float. -/
def ratTrunc (q : ℚ) : ℤ := if 0 ≤ q then Int.floor q else -(Int.floor (-q))

/-- Python's builtin `int()` on a string (ASCII model): strips whitespace,
takes an optional sign, then a digit group with single underscores allowed
between digits (`int('1_0') = 10`); no decimal point or exponent. -/
def pyIntStr (s : List Char) : Except PyError ℤ :=
  let t := trimChars s
  let p := stripSign t
  if validDigitPart p.2 then Except.ok (p.1 * (digitsValue p.2 : ℤ))
  else Except.error PyError.valueError

/-- Python `int(x)` on a parsed field. -/
def pyInt : Cell → Except PyError ℤ
  | Cell.num q => Except.ok (ratTrunc q)
  | Cell.str s => pyIntStr s

/-- The merged value built for one country,
src/design_project.py lines 29-35. -/
structure CountryRecord where
  region : Cell
  sub_region : Cell
  area : ℚ
  population : List ℚ
  species : List ℤ
deriving DecidableEq, Repr

/-- Python list indexing `l[i]` for a non-negative index. -/
def listIdx {α : Type} (l : List α) (i : ℕ) : Except PyError α :=
  match l.get? i with
  | some x => Except.ok x
  | none => Except.error PyError.indexError

/-- The record expression of src/design_project.py lines 29-35, evaluated in
Python's left-to-right order: `country_dict[country][0]`, `[1]`,
`float(country_dict[country][2])`, `list(map(float, population_dict[country]))`,
`list(map(int, species_dict[country]))`. -/
def mergeRecord (crow prow srow : List Cell) : Except PyError CountryRecord := do
  let region ← listIdx crow 0
  let sub ← listIdx crow 1
  let areaCell ← listIdx crow 2
  let area ← pyFloat areaCell
  let population ← prow.mapM pyFloat
  let species ← srow.mapM pyInt
  Except.ok { region := region, sub_region := sub, area := area,
              population := population, species := species }

/-- One iteration of the `for country in country_dict` loop of
src/design_project.py lines 27-35. -/
def mergeStep (population_dict species_dict : Dict (List Cell))
    (merged : Dict CountryRecord) (kv : Cell × List Cell) :
    Except PyError (Dict CountryRecord) :=
  match dget? population_dict kv.1, dget? species_dict kv.1 with
  | some prow, some srow => do
    let r ← mergeRecord kv.2 prow srow
    Except.ok (dinsert merged kv.1 r)
  | _, _ => Except.ok merged

/-- A file is modelled as `Option` contents; `open` (src/user_csv.py
line 13) raises `FileNotFoundError` when the file is absent. -/
def openFile (f : Option (List Char)) : Except PyError (List Char) :=
  match f with
  | some c => Except.ok c
  | none => Except.error PyError.fileNotFound

/-- src/design_project.py `merge_data` (lines 5-37). -/
def merge_data (country_file population_file species_file : Option (List Char)) :
    Except PyError (Dict CountryRecord) := do
  let country_content ← openFile country_file
  let population_content ← openFile population_file
  let species_content ← openFile species_file
  let country_data := read_csv country_content true
  let population_data := read_csv population_content true
  let species_data := read_csv species_content true
  let country_dict := dictOfRows (country_data.drop 1)
  let population_dict := dictOfRows (population_data.drop 1)
  let species_dict := dictOfRows (species_data.drop 1)
  List.foldlM (mergeStep population_dict species_dict) [] country_dict

/-- Result of `calculate_population_change`, src/design_project.py
lines 56-60. -/
structure PopStats where
  change : ℚ
  avg_population : ℚ
  density : ℚ
deriving DecidableEq, Repr

/-- Python `l[-1]` on a list. -/
def pyLast (l : List ℚ) : Except PyError ℚ :=
  match l.getLast? with
  | some x => Except.ok x
  | none => Except.error PyError.indexError

/-- Python `l[0]` on a list. -/
def pyFirst (l : List ℚ) : Except PyError ℚ :=
  match l.head? with
  | some x => Except.ok x
  | none => Except.error PyError.indexError

/-- `np.mean` over rationals: arithmetic mean; empty input yields NaN,
modelled as `nanResult`. -/
def npMean (l : List ℚ) : Except PyError ℚ :=
  if l.isEmpty then Except.error PyError.nanResult
  else Except.ok (l.sum / (l.length : ℚ))

/-- `np.mean` over a list of integers (the species series). -/
def npMeanZ (l : List ℤ) : Except PyError ℚ :=
  if l.isEmpty then Except.error PyError.nanResult
  else Except.ok ((l.sum : ℚ) / (l.length : ℚ))

/-- Python `a / b` on numbers: `ZeroDivisionError` when `b == 0`. -/
def pyDivQ (a b : ℚ) : Except PyError ℚ :=
  if b = 0 then Except.error PyError.zeroDivisionError else Except.ok (a / b)

/-- src/design_project.py `calculate_population_change` (lines 39-60).
`data[country]` looks the string key up in the merged dict. -/
def calculate_population_change (data : Dict CountryRecord) (country : List Char) :
    Except PyError PopStats := do
  let info ← match dget? data (Cell.str country) with
    | some i => Except.ok i
    | none => Except.error PyError.keyError
  let population := info.population
  let area := info.area
  let lastP ← pyLast population
  let firstP ← pyFirst population
  let change := lastP - firstP
  let avg ← npMean population
  let lastP2 ← pyLast population
  let density ← pyDivQ lastP2 area
  Except.ok { change := change, avg_population := avg, density := density }

/-- One entry of the list built by `calculate_species_statistics`,
src/design_project.py lines 79-84. -/
structure SpeciesStat where
  country : Cell
  avg_species : ℚ
  total_species : ℤ
  species_per_sq_km : ℚ
deriving DecidableEq, Repr

/-- The body of the matching branch of src/design_project.py lines 76-84,
in Python's evaluation order: `sum`, `np.mean`, division by area. -/
def speciesStat (country : Cell) (info : CountryRecord) : Except PyError SpeciesStat := do
  let total := info.species.sum
  let avg ← npMeanZ info.species
  let per ← pyDivQ (total : ℚ) info.area
  Except.ok { country := country, avg_species := avg, total_species := total,
              species_per_sq_km := per }

/-- src/design_project.py `calculate_species_statistics` (lines 62-85). -/
def calculate_species_statistics (data : Dict CountryRecord) (sub_region : List Char) :
    Except PyError (List SpeciesStat) :=
  data.foldlM
    (fun result kv =>
      if kv.2.sub_region = Cell.str sub_region then do
        let st ← speciesStat kv.1 kv.2
        Except.ok (result ++ [st])
      else Except.ok result)
    []

/-! ### Dictionary lemmas -/

theorem dmem_iff_exists {α : Type} {d : Dict α} {k : Cell} :
    dmem d k = true ↔ ∃ p ∈ d, p.1 = k := by
  simp [dmem, List.any_eq_true]

theorem dget_isSome_iff {α : Type} {d : Dict α} {k : Cell} :
    (dget? d k).isSome = true ↔ dmem d k = true := by
  simp [dget?, dmem, List.any_eq_true, List.find?_isSome]

theorem dget_eq_none {α : Type} {d : Dict α} {k : Cell}
    (h : dmem d k = false) : dget? d k = none := by
  cases hg : dget? d k with
  | none => rfl
  | some v =>
    have hs : (dget? d k).isSome = true := by rw [hg]; rfl
    rw [dget_isSome_iff.mp hs] at h
    simp at h

theorem find_update_self {α : Type} {d : Dict α} {k : Cell} {v : α}
    (h : dmem d k = true) :
    (d.map (fun p => if p.1 = k then (k, v) else p)).find? (fun p => p.1 = k) = some (k, v) := by
  induction d with
  | nil => simp [dmem] at h
  | cons p d ih =>
    by_cases hp : p.1 = k
    · simp [hp]
    · have hm : dmem d k = true := by
        simp [dmem] at h ⊢
        rcases h with h | h
        · exact absurd h hp
        · exact h
      simp [hp, List.find?_cons, ih hm]

theorem dget_dinsert_self {α : Type} (d : Dict α) (k : Cell) (v : α) :
    dget? (dinsert d k v) k = some v := by
  unfold dinsert
  by_cases hm : dmem d k
  · simp only [hm, if_true, dget?]
    rw [find_update_self hm]
    rfl
  · simp only [hm, if_false, dget?, Bool.false_eq_true]
    rw [List.find?_append]
    rw [List.find?_eq_none.mpr]
    · simp [List.find?]
    · intro p hp hpk
      apply absurd _ (by simp [hm] : ¬ dmem d k = true)
      exact dmem_iff_exists.mpr ⟨p, hp, by simpa using hpk⟩

theorem find_update_ne {α : Type} (d : Dict α) (k j : Cell) (v : α) (hne : j ≠ k) :
    (d.map (fun p => if p.1 = k then (k, v) else p)).find? (fun p => p.1 = j) =
      d.find? (fun p => p.1 = j) := by
  have hkj : ¬ (k = j) := fun h => hne h.symm
  induction d with
  | nil => rfl
  | cons p d ih =>
    by_cases hp : p.1 = k
    · have hpj : ¬ (p.1 = j) := by rw [hp]; exact hkj
      simp [List.find?, hp, hkj, hpj, ih]
    · by_cases hj : p.1 = j
      · simp [List.find?, hp, hj, hne]
      · simp [List.find?, hp, hj, hne, ih]

theorem dget_dinsert_ne {α : Type} (d : Dict α) (k j : Cell) (v : α) (hne : j ≠ k) :
    dget? (dinsert d k v) j = dget? d j := by
  have hkj : ¬ (k = j) := fun h => hne h.symm
  unfold dinsert
  by_cases hm : dmem d k
  · simp only [hm, if_true, dget?]
    rw [find_update_ne d k j v hne]
  · simp only [hm, if_false, dget?, Bool.false_eq_true]
    rw [List.find?_append]
    have h1 : List.find? (fun p => p.1 = j) [(k, v)] = none := by
      simp [List.find?, hkj]
    rw [h1, Option.or_none]

theorem keys_dinsert {α : Type} (d : Dict α) (k : Cell) (v : α) :
    (dinsert d k v).map Prod.fst =
      if dmem d k then d.map Prod.fst else d.map Prod.fst ++ [k] := by
  unfold dinsert
  by_cases hm : dmem d k
  · simp only [hm, if_true, List.map_map]
    apply List.map_congr_left
    intro p _
    by_cases hp : p.1 = k
    · simp [Function.comp, hp]
    · simp [Function.comp, hp]
  · simp [hm]

theorem dmem_iff_mem_keys {α : Type} {d : Dict α} {k : Cell} :
    dmem d k = true ↔ k ∈ d.map Prod.fst := by
  rw [dmem_iff_exists]
  constructor
  · rintro ⟨p, hp, hk⟩
    exact List.mem_map.mpr ⟨p, hp, hk⟩
  · intro hk
    rcases List.mem_map.mp hk with ⟨p, hp, hk2⟩
    exact ⟨p, hp, hk2⟩

/-- Looking a key up after the fold that builds a row dictionary finds the
fields of the last row with that key, falling back to the accumulator. -/
theorem dget_foldl_rows (rows : List (List Cell)) (d : Dict (List Cell)) (k : Cell) :
    dget? (rows.foldl (fun d row => dinsert d (rowKey row) (row.drop 1)) d) k =
      ((rows.reverse.find? (fun row => rowKey row = k)).map (fun row => row.drop 1)).or
        (dget? d k) := by
  induction rows generalizing d with
  | nil => simp
  | cons r rs ih =>
    simp only [List.foldl_cons, ih, List.reverse_cons, List.find?_append]
    cases h : rs.reverse.find? (fun row => rowKey row = k) with
    | some row => simp [Option.or]
    | none =>
      simp only [Option.map_none', Option.none_or, Option.or_none]
      by_cases hk : rowKey r = k
      · subst hk
        simp [List.find?, dget_dinsert_self]
      · have : List.find? (fun row => rowKey row = k) [r] = none := by simp [List.find?, hk]
        rw [this]
        simp only [Option.map_none', Option.none_or]
        exact dget_dinsert_ne d (rowKey r) k (r.drop 1) (fun h => hk h.symm)

/-- Lookup in `dictOfRows` yields the fields of the last row carrying the key. -/
theorem dget_dictOfRows (rows : List (List Cell)) (k : Cell) :
    dget? (dictOfRows rows) k =
      (rows.reverse.find? (fun row => rowKey row = k)).map (fun row => row.drop 1) := by
  unfold dictOfRows
  rw [dget_foldl_rows]
  simp [dget?]

/-- Claim C10: when the same country name appears in the first column of
several data rows of a source file, the per-file key-to-fields mapping built
by merge_data (the dict comprehension of src/design_project.py lines 22-24)
keeps only the fields of the last such row; earlier duplicate rows never
contribute. -/
theorem C10_duplicate_rows_keep_last (rows : List (List Cell)) (k : Cell) :
    dget? (dictOfRows rows) k =
      (rows.reverse.find? (fun row => rowKey row = k)).map (fun row => row.drop 1) :=
  dget_dictOfRows rows k

/-! ### Claim C4: numeric-field classification -/

/-- All characters are decimal digits. -/
def digitsOnly (l : List Char) : Bool := l.all Char.isDigit

/-- Specification-side predicate, following the spec's words: a field is
numeric exactly when, after trimming, it is a non-negative decimal numeral,
i.e. digit characters with at most one decimal point and at least one digit
(no sign, no other characters). -/
def specNonnegDecimal (l : List Char) : Bool :=
  let ip := l.takeWhile (fun c => c ≠ '.')
  match l.dropWhile (fun c => c ≠ '.') with
  | [] => digitsOnly ip && !ip.isEmpty
  | _ :: fp => digitsOnly ip && digitsOnly fp && !(ip.isEmpty && fp.isEmpty)

theorem removeFirst_of_not_mem {c : Char} : ∀ {l : List Char}, c ∉ l → removeFirst c l = l := by
  intro l
  induction l with
  | nil => intro _; rfl
  | cons x xs ih =>
    intro h
    have hx : ¬ x = c := fun he => h (he ▸ List.mem_cons_self x xs)
    have hxs : c ∉ xs := fun hm => h (List.mem_cons_of_mem x hm)
    simp [removeFirst, hx, ih hxs]

theorem removeFirst_append (a b : List Char) (c : Char) (h : c ∉ a) :
    removeFirst c (a ++ c :: b) = a ++ b := by
  induction a with
  | nil => simp [removeFirst]
  | cons x xs ih =>
    have hx : ¬ x = c := fun he => h (he ▸ List.mem_cons_self x xs)
    have hxs : c ∉ xs := fun hm => h (List.mem_cons_of_mem x hm)
    simp [removeFirst, hx, ih hxs]

theorem dropWhile_head_false {α : Type} (p : α → Bool) :
    ∀ (l : List α) (x : α) (xs : List α), l.dropWhile p = x :: xs → p x = false := by
  intro l
  induction l with
  | nil => intro x xs h; simp [List.dropWhile] at h
  | cons y ys ih =>
    intro x xs h
    by_cases hy : p y
    · rw [List.dropWhile_cons_of_pos hy] at h
      exact ih x xs h
    · rw [List.dropWhile_cons_of_neg hy] at h
      cases h
      exact Bool.of_not_eq_true hy

theorem isEmpty_append_chars (a b : List Char) :
    (a ++ b).isEmpty = (a.isEmpty && b.isEmpty) := by
  cases a <;> simp

theorem bool_and_shuffle (a b e f : Bool) :
    ((!(e && f)) && (a && b)) = ((a && b) && !(e && f)) := by
  cases a <;> cases b <;> cases e <;> cases f <;> rfl

/-- The guard of src/user_csv.py line 18 (`isdigit` after deleting the first
dot) agrees with the spec's non-negative-decimal classification. -/
theorem isdigit_removeFirst_eq_spec (l : List Char) :
    isdigitStr (removeFirst '.' l) = specNonnegDecimal l := by
  have hip : '.' ∉ l.takeWhile (fun c => decide (c ≠ '.')) := by
    intro hmem
    have := List.mem_takeWhile_imp hmem
    simp at this
  cases hrest : l.dropWhile (fun c => decide (c ≠ '.')) with
  | nil =>
    have h2 := List.takeWhile_append_dropWhile (p := fun c => decide (c ≠ '.')) (l := l)
    rw [hrest, List.append_nil] at h2
    have hnd : '.' ∉ l := h2 ▸ hip
    simp only [specNonnegDecimal, hrest]
    rw [removeFirst_of_not_mem hnd, h2]
    unfold isdigitStr digitsOnly
    generalize l.isEmpty = e
    generalize l.all Char.isDigit = a
    cases e <;> cases a <;> rfl
  | cons r fp =>
    have hr : r = '.' := by
      have := dropWhile_head_false _ l r fp hrest
      simpa using this
    subst hr
    have hl : l = l.takeWhile (fun c => decide (c ≠ '.')) ++ '.' :: fp := by
      conv_lhs => rw [← List.takeWhile_append_dropWhile (p := fun c => decide (c ≠ '.')) (l := l)]
      rw [hrest]
    have hrf : removeFirst '.' l = l.takeWhile (fun c => decide (c ≠ '.')) ++ fp := by
      conv_lhs => rw [hl]
      exact removeFirst_append _ fp '.' hip
    simp only [specNonnegDecimal, hrest]
    rw [hrf]
    unfold isdigitStr digitsOnly
    rw [List.all_append, isEmpty_append_chars]
    generalize (l.takeWhile (fun c => decide (c ≠ '.'))).all Char.isDigit = a
    generalize fp.all Char.isDigit = b
    generalize (l.takeWhile (fun c => decide (c ≠ '.'))).isEmpty = e
    generalize fp.isEmpty = f
    exact bool_and_shuffle a b e f

/-- Claim C4: the parser classifies a field as numeric exactly when, after
trimming whitespace, it is a non-negative decimal numeral, and then returns
its numeric value; otherwise it returns the trimmed text as a literal string
(in particular fields with a leading sign or embedded non-digit characters
stay strings). -/
theorem C4_field_classification (value : List Char) :
    parseCell value =
      if specNonnegDecimal (trimChars value) then Cell.num (decimalVal (trimChars value))
      else Cell.str (trimChars value) := by
  show (if isdigitStr (removeFirst '.' (trimChars value))
        then Cell.num (decimalVal (trimChars value))
        else Cell.str (trimChars value)) = _
  rw [isdigit_removeFirst_eq_spec]

/-! ### Claim C2: population statistics -/

@[simp] theorem exceptOk_bind {ε α β : Type} (a : α) (f : α → Except ε β) :
    (Except.ok a >>= f : Except ε β) = f a := rfl

@[simp] theorem exceptError_bind {ε α β : Type} (e : ε) (f : α → Except ε β) :
    ((Except.error e : Except ε α) >>= f) = Except.error e := rfl

/-- Claim C2: for a country present in the dataset whose population sequence
is non-empty and whose area is non-zero, calculate_population_change returns
change = last − first population value, avg_population = arithmetic mean of
the whole sequence, and density = last population value ÷ area, all as exact
rational arithmetic (no rounding inside the computation). -/
theorem C2_population_change (data : Dict CountryRecord) (country : List Char)
    (info : CountryRecord)
    (h : dget? data (Cell.str country) = some info)
    (hpop : info.population ≠ [])
    (har : info.area ≠ 0) :
    calculate_population_change data country =
      Except.ok { change := info.population.getLastD 0 - info.population.headD 0,
                  avg_population := info.population.sum / (info.population.length : ℚ),
                  density := info.population.getLastD 0 / info.area } := by
  obtain ⟨x, hx⟩ := Option.isSome_iff_exists.mp (List.getLast?_isSome.mpr hpop)
  obtain ⟨y, hy⟩ := Option.isSome_iff_exists.mp (List.head?_isSome.mpr hpop)
  have hxD : info.population.getLastD 0 = x := by
    rw [List.getLastD_eq_getLast?, hx]
    rfl
  have hyD : info.population.headD 0 = y := by
    rw [List.headD_eq_head?, hy]
    rfl
  have hemp : info.population.isEmpty = false := List.isEmpty_eq_false.mpr hpop
  simp [calculate_population_change, h, pyLast, pyFirst, npMean, pyDivQ, hx, hy, hemp, har,
    hxD, hyD, hpop]

/-- Witness for C2 on a concrete dataset. -/
theorem C2_population_change_witness :
    calculate_population_change
        [(Cell.str ['X'],
          { region := Cell.str ['r'], sub_region := Cell.str ['s'], area := 50,
            population := [100, 150], species := [3, 4] })] ['X'] =
      Except.ok { change := 50, avg_population := 125, density := 3 } := by
  rw [C2_population_change _ _
    { region := Cell.str ['r'], sub_region := Cell.str ['s'], area := 50,
      population := [100, 150], species := [3, 4] } (by rfl) (by simp) (by norm_num)]
  norm_num

/-! ### Claims C3 and C6: species statistics -/

/-- The statistics record produced for one matching country, written out. -/
def statOf (kv : Cell × CountryRecord) : SpeciesStat :=
  { country := kv.1,
    avg_species := (kv.2.species.sum : ℚ) / (kv.2.species.length : ℚ),
    total_species := kv.2.species.sum,
    species_per_sq_km := (kv.2.species.sum : ℚ) / kv.2.area }

theorem speciesStat_ok (k : Cell) (info : CountryRecord)
    (h1 : info.species ≠ []) (h2 : info.area ≠ 0) :
    speciesStat k info = Except.ok (statOf (k, info)) := by
  have hemp : info.species.isEmpty = false := List.isEmpty_eq_false.mpr h1
  simp [speciesStat, statOf, npMeanZ, pyDivQ, hemp, h1, h2]

theorem species_fold (q : List Char) :
    ∀ (data : Dict CountryRecord) (acc : List SpeciesStat),
    (∀ kv ∈ data, kv.2.sub_region = Cell.str q → kv.2.species ≠ [] ∧ kv.2.area ≠ 0) →
    List.foldlM
      (fun result kv =>
        if kv.2.sub_region = Cell.str q then do
          let st ← speciesStat kv.1 kv.2
          Except.ok (result ++ [st])
        else Except.ok result)
      acc data
    = Except.ok (acc ++ (data.filter (fun kv => kv.2.sub_region = Cell.str q)).map statOf) := by
  intro data
  induction data with
  | nil =>
    intro acc _
    simp
    rfl
  | cons kv rest ih =>
    intro acc hgood
    rw [List.foldlM_cons]
    by_cases hsub : kv.2.sub_region = Cell.str q
    · have hk := hgood kv (List.mem_cons_self kv rest) hsub
      rw [if_pos hsub]
      have hst := speciesStat_ok kv.1 kv.2 hk.1 hk.2
      have hrest : ∀ p ∈ rest, p.2.sub_region = Cell.str q → p.2.species ≠ [] ∧ p.2.area ≠ 0 :=
        fun p hp => hgood p (List.mem_cons_of_mem kv hp)
      simp only [hst, exceptOk_bind, ih (acc ++ [statOf (kv.1, kv.2)]) hrest]
      simp [hsub, statOf]
    · rw [if_neg hsub]
      have hrest : ∀ p ∈ rest, p.2.sub_region = Cell.str q → p.2.species ≠ [] ∧ p.2.area ≠ 0 :=
        fun p hp => hgood p (List.mem_cons_of_mem kv hp)
      simp only [exceptOk_bind, ih acc hrest]
      simp [hsub]

/-- Claim C3: calculate_species_statistics returns exactly one result per
record whose sub_region equals the query (exact, case-sensitive comparison),
and for each matching country total_species is the sum of the species
sequence, avg_species is that total divided by the sequence length, and
species_per_sq_km is that total divided by the area. The hypotheses require
each matching record to have a non-empty species sequence and non-zero area
(otherwise the Python code produces NaN or raises ZeroDivisionError). -/
theorem C3_species_statistics (data : Dict CountryRecord) (q : List Char)
    (hgood : ∀ kv ∈ data, kv.2.sub_region = Cell.str q →
      kv.2.species ≠ [] ∧ kv.2.area ≠ 0) :
    calculate_species_statistics data q =
      Except.ok ((data.filter (fun kv => kv.2.sub_region = Cell.str q)).map statOf) := by
  have h := species_fold q data [] hgood
  simpa [calculate_species_statistics] using h

/-- Witness for C3 on a concrete dataset. -/
theorem C3_species_statistics_witness :
    calculate_species_statistics
        [(Cell.str ['X'],
          { region := Cell.str ['r'], sub_region := Cell.str ['s'], area := 50,
            population := [100, 150], species := [3, 4] }),
         (Cell.str ['Y'],
          { region := Cell.str ['r'], sub_region := Cell.str ['t'], area := 20,
            population := [1, 2], species := [8, 9] })] ['s'] =
      Except.ok [{ country := Cell.str ['X'], avg_species := 7 / 2, total_species := 7,
                   species_per_sq_km := 7 / 50 }] := by
  have h := C3_species_statistics
    [(Cell.str ['X'],
      { region := Cell.str ['r'], sub_region := Cell.str ['s'], area := 50,
        population := [100, 150], species := [3, 4] }),
     (Cell.str ['Y'],
      { region := Cell.str ['r'], sub_region := Cell.str ['t'], area := 20,
        population := [1, 2], species := [8, 9] })] ['s'] (by decide)
  rw [h]
  norm_num [statOf]
  decide

/-- Claim C6: a sub-region query matching no record returns the empty list —
a normal value, distinct from every error — and raises nothing. -/
theorem C6_empty_subregion (data : Dict CountryRecord) (q : List Char)
    (h : ∀ kv ∈ data, kv.2.sub_region ≠ Cell.str q) :
    calculate_species_statistics data q = Except.ok [] := by
  have hgood : ∀ kv ∈ data, kv.2.sub_region = Cell.str q →
      kv.2.species ≠ [] ∧ kv.2.area ≠ 0 :=
    fun kv hm he => absurd he (h kv hm)
  have hfold := species_fold q data [] hgood
  have hfilter : data.filter (fun kv => kv.2.sub_region = Cell.str q) = [] := by
    apply List.filter_eq_nil_iff.mpr
    intro kv hm
    simp [h kv hm]
  rw [calculate_species_statistics]
  rw [hfold, hfilter]
  simp

/-- Witness for C6 on a concrete dataset. -/
theorem C6_empty_subregion_witness :
    calculate_species_statistics
        [(Cell.str ['Z'],
          { region := Cell.str ['r'], sub_region := Cell.str ['u'], area := 10,
            population := [4], species := [1] })] ['v'] =
      Except.ok [] :=
  C6_empty_subregion _ _ (by decide)

/-! ### Key order and uniqueness of the built dictionaries -/

/-- First-occurrence deduplication: the key order of a Python dict built by
inserting the listed keys in order. -/
def dedupFirst (l : List Cell) : List Cell :=
  l.foldl (fun acc k => if k ∈ acc then acc else acc ++ [k]) []

theorem dedupFirst_foldl_mem (j : Cell) :
    ∀ (l : List Cell) (acc : List Cell),
    (j ∈ l.foldl (fun acc k => if k ∈ acc then acc else acc ++ [k]) acc ↔ j ∈ acc ∨ j ∈ l) := by
  intro l
  induction l with
  | nil => intro acc; simp
  | cons k t ih =>
    intro acc
    rw [List.foldl_cons]
    by_cases hk : k ∈ acc
    · rw [if_pos hk, ih]
      constructor
      · rintro (h | h)
        · exact Or.inl h
        · exact Or.inr (List.mem_cons_of_mem k h)
      · rintro (h | h)
        · exact Or.inl h
        · rcases List.mem_cons.mp h with h | h
          · exact Or.inl (h ▸ hk)
          · exact Or.inr h
    · rw [if_neg hk, ih]
      simp only [List.mem_append, List.mem_singleton, List.mem_cons]
      tauto

theorem mem_dedupFirst {j : Cell} {l : List Cell} : j ∈ dedupFirst l ↔ j ∈ l := by
  unfold dedupFirst
  rw [dedupFirst_foldl_mem]
  simp

theorem dedupFirst_foldl_nodup :
    ∀ (l : List Cell) (acc : List Cell), acc.Nodup →
    (l.foldl (fun acc k => if k ∈ acc then acc else acc ++ [k]) acc).Nodup := by
  intro l
  induction l with
  | nil => intro acc h; simpa using h
  | cons k t ih =>
    intro acc h
    rw [List.foldl_cons]
    by_cases hk : k ∈ acc
    · rw [if_pos hk]
      exact ih acc h
    · rw [if_neg hk]
      apply ih
      rw [List.nodup_append]
      exact ⟨h, List.nodup_singleton k, by
        intro a ha hmem
        rcases List.mem_singleton.mp hmem with rfl
        exact hk ha⟩

theorem nodup_dedupFirst (l : List Cell) : (dedupFirst l).Nodup :=
  dedupFirst_foldl_nodup l [] List.nodup_nil

/-- The key list of the dictionary built from rows is the first-occurrence
deduplication of the first-column values. -/
theorem keys_foldl_rows :
    ∀ (rows : List (List Cell)) (d : Dict (List Cell)),
    ((rows.foldl (fun d row => dinsert d (rowKey row) (row.drop 1)) d).map Prod.fst) =
      ((rows.map rowKey).foldl (fun acc k => if k ∈ acc then acc else acc ++ [k])
        (d.map Prod.fst)) := by
  intro rows
  induction rows with
  | nil => intro d; rfl
  | cons r t ih =>
    intro d
    rw [List.foldl_cons, List.map_cons, List.foldl_cons, ih]
    congr 1
    rw [keys_dinsert]
    by_cases hm : dmem d (rowKey r)
    · rw [if_pos hm, if_pos (dmem_iff_mem_keys.mp hm)]
    · rw [if_neg hm, if_neg (fun hmem => hm (dmem_iff_mem_keys.mpr hmem))]

theorem keys_dictOfRows (rows : List (List Cell)) :
    (dictOfRows rows).map Prod.fst = dedupFirst (rows.map rowKey) := by
  unfold dictOfRows dedupFirst
  rw [keys_foldl_rows]
  rfl

theorem nodup_keys_dictOfRows (rows : List (List Cell)) :
    ((dictOfRows rows).map Prod.fst).Nodup := by
  rw [keys_dictOfRows]
  exact nodup_dedupFirst _

/-- In a dictionary with distinct keys, every entry is found by lookup. -/
theorem dget_of_mem_nodup {α : Type} :
    ∀ (d : Dict α), (d.map Prod.fst).Nodup → ∀ kv ∈ d, dget? d kv.1 = some kv.2 := by
  intro d
  induction d with
  | nil => intro _ kv h; simp at h
  | cons p t ih =>
    intro hnd kv hm
    rw [List.map_cons, List.nodup_cons] at hnd
    rcases List.mem_cons.mp hm with rfl | hm2
    · simp [dget?, List.find?]
    · have hne : ¬ p.1 = kv.1 := by
        intro he
        exact hnd.1 (he ▸ List.mem_map.mpr ⟨kv, hm2, rfl⟩)
      have := ih hnd.2 kv hm2
      simpa [dget?, List.find?, hne] using this

/-! ### The merge loop -/

theorem nodup_append_cons_drop {l1 l2 : List Cell} {x : Cell}
    (h : (l1 ++ x :: l2).Nodup) : (l1 ++ l2).Nodup :=
  List.Nodup.sublist (List.Sublist.append_left ((List.Sublist.refl l2).cons x) l1) h

theorem not_mem_left_of_nodup_append_cons {l1 l2 : List Cell} {x : Cell}
    (h : (l1 ++ x :: l2).Nodup) : x ∉ l1 := by
  rw [List.nodup_append] at h
  intro hx
  exact (List.disjoint_left.mp h.2.2 hx) (List.mem_cons_self x l2)

theorem mergeStep_some_some {pd sd : Dict (List Cell)} {merged : Dict CountryRecord}
    {kv : Cell × List Cell} {prow srow : List Cell}
    (hp : dget? pd kv.1 = some prow) (hs : dget? sd kv.1 = some srow) :
    mergeStep pd sd merged kv =
      (mergeRecord kv.2 prow srow >>= fun r => Except.ok (dinsert merged kv.1 r)) := by
  unfold mergeStep
  rw [hp, hs]

theorem mergeStep_pnone {pd sd : Dict (List Cell)} {merged : Dict CountryRecord}
    {kv : Cell × List Cell} (h : dget? pd kv.1 = none) :
    mergeStep pd sd merged kv = Except.ok merged := by
  unfold mergeStep
  rw [h]

theorem mergeStep_snone {pd sd : Dict (List Cell)} {merged : Dict CountryRecord}
    {kv : Cell × List Cell} (h : dget? sd kv.1 = none) :
    mergeStep pd sd merged kv = Except.ok merged := by
  unfold mergeStep
  cases hp : dget? pd kv.1 with
  | none => rfl
  | some prow => rw [h]

/-- When the merge loop succeeds, the merged keys are the country-dict keys
that are present in both other dictionaries, in order. -/
theorem mergeLoop_ok_keys (pd sd : Dict (List Cell)) :
    ∀ (cd : Dict (List Cell)) (m0 m : Dict CountryRecord),
    (m0.map Prod.fst ++ cd.map Prod.fst).Nodup →
    List.foldlM (mergeStep pd sd) m0 cd = Except.ok m →
    m.map Prod.fst = m0.map Prod.fst ++
      (cd.map Prod.fst).filter
        (fun k => (dget? pd k).isSome && (dget? sd k).isSome) := by
  intro cd
  induction cd with
  | nil =>
    intro m0 m _ hfold
    have h0 : (pure m0 : Except PyError (Dict CountryRecord)) = Except.ok m0 := rfl
    rw [List.foldlM_nil, h0] at hfold
    cases hfold
    simp
  | cons kv rest ih =>
    intro m0 m hnd hfold
    rw [List.foldlM_cons] at hfold
    have hnd' : (m0.map Prod.fst ++ kv.1 :: rest.map Prod.fst).Nodup := by simpa using hnd
    cases hp : dget? pd kv.1 with
    | none =>
      rw [mergeStep_pnone hp, exceptOk_bind] at hfold
      rw [ih m0 m (nodup_append_cons_drop hnd') hfold]
      simp [hp]
    | some prow =>
      cases hs : dget? sd kv.1 with
      | none =>
        rw [mergeStep_snone hs, exceptOk_bind] at hfold
        rw [ih m0 m (nodup_append_cons_drop hnd') hfold]
        simp [hp, hs]
      | some srow =>
        rw [mergeStep_some_some hp hs] at hfold
        cases hmr : mergeRecord kv.2 prow srow with
        | error e =>
          rw [hmr, exceptError_bind, exceptError_bind] at hfold
          cases hfold
        | ok r =>
          rw [hmr, exceptOk_bind, exceptOk_bind] at hfold
          have hx : kv.1 ∉ m0.map Prod.fst := not_mem_left_of_nodup_append_cons hnd'
          have hdm : dmem m0 kv.1 = false := by
            cases hdm2 : dmem m0 kv.1
            · rfl
            · exact absurd (dmem_iff_mem_keys.mp hdm2) hx
          have hkeys : (dinsert m0 kv.1 r).map Prod.fst = m0.map Prod.fst ++ [kv.1] := by
            rw [keys_dinsert, hdm]
            simp
          have hnd2 : ((dinsert m0 kv.1 r).map Prod.fst ++ rest.map Prod.fst).Nodup := by
            rw [hkeys, List.append_assoc]
            simpa using hnd'
          rw [ih (dinsert m0 kv.1 r) m hnd2 hfold, hkeys]
          simp [hp, hs, List.append_assoc]

/-- When the merge loop succeeds, every merged entry arose from a record
built out of the three dictionaries' rows for its key. -/
theorem mergeLoop_ok_lookup (pd sd : Dict (List Cell)) :
    ∀ (cd : Dict (List Cell)) (m0 m : Dict CountryRecord),
    List.foldlM (mergeStep pd sd) m0 cd = Except.ok m →
    ∀ k r, dget? m k = some r →
      dget? m0 k = some r ∨
      ∃ crow prow srow, (k, crow) ∈ cd ∧ dget? pd k = some prow ∧
        dget? sd k = some srow ∧ mergeRecord crow prow srow = Except.ok r := by
  intro cd
  induction cd with
  | nil =>
    intro m0 m hfold k r hget
    have h0 : (pure m0 : Except PyError (Dict CountryRecord)) = Except.ok m0 := rfl
    rw [List.foldlM_nil, h0] at hfold
    cases hfold
    exact Or.inl hget
  | cons kv rest ih =>
    intro m0 m hfold k r hget
    rw [List.foldlM_cons] at hfold
    cases hp : dget? pd kv.1 with
    | none =>
      rw [mergeStep_pnone hp, exceptOk_bind] at hfold
      rcases ih m0 m hfold k r hget with h | ⟨crow, prow, srow, hmem, h1, h2, h3⟩
      · exact Or.inl h
      · exact Or.inr ⟨crow, prow, srow, List.mem_cons_of_mem kv hmem, h1, h2, h3⟩
    | some prow =>
      cases hs : dget? sd kv.1 with
      | none =>
        rw [mergeStep_snone hs, exceptOk_bind] at hfold
        rcases ih m0 m hfold k r hget with h | ⟨crow, prow2, srow, hmem, h1, h2, h3⟩
        · exact Or.inl h
        · exact Or.inr ⟨crow, prow2, srow, List.mem_cons_of_mem kv hmem, h1, h2, h3⟩
      | some srow =>
        rw [mergeStep_some_some hp hs] at hfold
        cases hmr : mergeRecord kv.2 prow srow with
        | error e =>
          rw [hmr, exceptError_bind, exceptError_bind] at hfold
          cases hfold
        | ok r2 =>
          rw [hmr, exceptOk_bind, exceptOk_bind] at hfold
          rcases ih (dinsert m0 kv.1 r2) m hfold k r hget
            with h | ⟨crow, prow2, srow2, hmem, h1, h2, h3⟩
          · by_cases hk : k = kv.1
            · subst hk
              rw [dget_dinsert_self] at h
              cases h
              refine Or.inr ⟨kv.2, prow, srow, ?_, hp, hs, hmr⟩
              exact List.mem_cons.mpr (Or.inl rfl)
            · rw [dget_dinsert_ne m0 kv.1 k r2 hk] at h
              exact Or.inl h
          · exact Or.inr ⟨crow, prow2, srow2, List.mem_cons_of_mem kv hmem, h1, h2, h3⟩

/-! ### Claim C1: inner join on keys -/

/-- merge_data on three present files is exactly the merge loop over the
three row dictionaries. -/
theorem merge_data_some (c p s : List Char) :
    merge_data (some c) (some p) (some s) =
      List.foldlM (mergeStep (fileDict p) (fileDict s)) [] (fileDict c) := rfl

theorem mem_fileDict_keys {content : List Char} {k : Cell} :
    k ∈ (fileDict content).map Prod.fst ↔ k ∈ (dataRows content).map rowKey := by
  unfold fileDict
  rw [keys_dictOfRows]
  exact mem_dedupFirst

theorem dget_fileDict_isSome {content : List Char} {k : Cell} :
    (dget? (fileDict content) k).isSome = true ↔ k ∈ (dataRows content).map rowKey := by
  rw [dget_isSome_iff, dmem_iff_mem_keys]
  exact mem_fileDict_keys

/-- Claim C1: when merge_data returns a mapping, a country is a key of the
result exactly when it appears in the first column of a data row of the
country file, of the population file, and of the species file (inner join). -/
theorem C1_merge_inner_join (c p s : List Char) (m : Dict CountryRecord) (k : Cell)
    (h : merge_data (some c) (some p) (some s) = Except.ok m) :
    ((dget? m k).isSome = true ↔
      (k ∈ (dataRows c).map rowKey ∧ k ∈ (dataRows p).map rowKey ∧
        k ∈ (dataRows s).map rowKey)) := by
  rw [merge_data_some] at h
  have hnd : (([] : Dict CountryRecord).map Prod.fst ++ (fileDict c).map Prod.fst).Nodup := by
    simpa using nodup_keys_dictOfRows (dataRows c)
  have hkeys := mergeLoop_ok_keys (fileDict p) (fileDict s) (fileDict c) [] m hnd h
  rw [dget_isSome_iff, dmem_iff_mem_keys, hkeys]
  simp only [List.map_nil, List.nil_append, List.mem_filter, Bool.and_eq_true]
  rw [mem_fileDict_keys]
  rw [dget_fileDict_isSome, dget_fileDict_isSome]

/-- Witness for C1 on concrete files: Y appears in the country and species
files but not in the population file, so it is not a key of the result. -/
theorem C1_merge_inner_join_witness :
    ((dget? [(Cell.str ['X'],
        ({ region := Cell.str ['r'], sub_region := Cell.str ['s'], area := 10,
           population := [5], species := [3] } : CountryRecord))] (Cell.str ['Y'])).isSome = true ↔
      (Cell.str ['Y'] ∈ (dataRows ("K,R,S,A\nX,r,s,10\nY,r,t,20\n".data)).map rowKey ∧
        Cell.str ['Y'] ∈ (dataRows ("K,P\nX,5\n".data)).map rowKey ∧
        Cell.str ['Y'] ∈ (dataRows ("K,S\nX,3\nY,4\n".data)).map rowKey)) :=
  C1_merge_inner_join ("K,R,S,A\nX,r,s,10\nY,r,t,20\n".data) ("K,P\nX,5\n".data)
    ("K,S\nX,3\nY,4\n".data) _ (Cell.str ['Y']) (by rfl)

/-! ### Claim C8: result order of the species statistics -/

theorem dget_cons_ne {α : Type} (p : Cell × α) (d : Dict α) (k : Cell) (h : ¬ p.1 = k) :
    dget? (p :: d) k = dget? d k := by
  simp [dget?, List.find?, h]

theorem dget_cons_self {α : Type} (p : Cell × α) (d : Dict α) :
    dget? (p :: d) p.1 = some p.2 := by
  simp [dget?, List.find?]

/-- With distinct keys, filtering entries by a predicate on the record and
then taking keys equals filtering the key list through lookup. -/
theorem filter_map_fst_eq (P : CountryRecord → Bool) :
    ∀ (m : Dict CountryRecord), (m.map Prod.fst).Nodup →
    (m.filter (fun kv => P kv.2)).map Prod.fst =
      (m.map Prod.fst).filter (fun k => Option.any P (dget? m k)) := by
  intro m
  induction m with
  | nil => intro _; rfl
  | cons p t ih =>
    intro hnd
    rw [List.map_cons, List.nodup_cons] at hnd
    have htail : ∀ k ∈ t.map Prod.fst,
        (Option.any P (dget? (p :: t) k)) = (Option.any P (dget? t k)) := by
      intro k hk
      have hne : ¬ p.1 = k := fun he => hnd.1 (he ▸ hk)
      rw [dget_cons_ne p t k hne]
    by_cases hP : P p.2
    · rw [List.filter_cons_of_pos (by simpa using hP), List.map_cons, List.map_cons,
        List.filter_cons_of_pos (by rw [dget_cons_self, Option.any_some]; exact hP),
        List.filter_congr htail, ih hnd.2]
    · rw [List.filter_cons_of_neg (by simpa using hP), List.map_cons,
        List.filter_cons_of_neg (by rw [dget_cons_self, Option.any_some]; simpa using hP),
        List.filter_congr htail, ih hnd.2]

theorem speciesStat_country (k : Cell) (info : CountryRecord) (st : SpeciesStat)
    (h : speciesStat k info = Except.ok st) : st.country = k := by
  unfold speciesStat at h
  cases h1 : npMeanZ info.species with
  | error e => rw [h1] at h; simp at h
  | ok avg =>
    rw [h1, exceptOk_bind] at h
    cases h2 : pyDivQ ((info.species.sum : ℤ) : ℚ) info.area with
    | error e => rw [h2] at h; simp at h
    | ok per =>
      rw [h2, exceptOk_bind] at h
      cases h
      rfl

/-- The countries reported by the species-statistics fold are the keys of the
matching entries, in entry order. -/
theorem species_fold_countries (q : List Char) :
    ∀ (data : Dict CountryRecord) (acc lst : List SpeciesStat),
    List.foldlM
      (fun result kv =>
        if kv.2.sub_region = Cell.str q then do
          let st ← speciesStat kv.1 kv.2
          Except.ok (result ++ [st])
        else Except.ok result)
      acc data = Except.ok lst →
    lst.map (fun st => st.country) =
      acc.map (fun st => st.country) ++
        (data.filter (fun kv => kv.2.sub_region = Cell.str q)).map Prod.fst := by
  intro data
  induction data with
  | nil =>
    intro acc lst hfold
    have h0 : (pure acc : Except PyError (List SpeciesStat)) = Except.ok acc := rfl
    rw [List.foldlM_nil, h0] at hfold
    cases hfold
    simp
  | cons kv rest ih =>
    intro acc lst hfold
    rw [List.foldlM_cons] at hfold
    by_cases hsub : kv.2.sub_region = Cell.str q
    · rw [if_pos hsub] at hfold
      cases hst : speciesStat kv.1 kv.2 with
      | error e =>
        rw [hst, exceptError_bind, exceptError_bind] at hfold
        cases hfold
      | ok st =>
        rw [hst, exceptOk_bind, exceptOk_bind] at hfold
        rw [ih (acc ++ [st]) lst hfold]
        rw [List.filter_cons_of_pos (by simpa using hsub)]
        simp [speciesStat_country kv.1 kv.2 st hst]
    · rw [if_neg hsub, exceptOk_bind] at hfold
      rw [ih acc lst hfold]
      rw [List.filter_cons_of_neg (by simpa using hsub)]

/-- Claim C8: the species-statistics result list is ordered by the iteration
order of the merged map, which is the order in which matching countries first
appeared in the country file among those present in the other two files. -/
theorem C8_species_order (c p s q : List Char) (m : Dict CountryRecord)
    (lst : List SpeciesStat)
    (hm : merge_data (some c) (some p) (some s) = Except.ok m)
    (hst : calculate_species_statistics m q = Except.ok lst) :
    lst.map (fun st => st.country) =
      ((dedupFirst ((dataRows c).map rowKey)).filter
          (fun k => dmem (fileDict p) k && dmem (fileDict s) k)).filter
        (fun k => Option.any (fun r => r.sub_region = Cell.str q) (dget? m k)) := by
  rw [merge_data_some] at hm
  have hnd : (([] : Dict CountryRecord).map Prod.fst ++ (fileDict c).map Prod.fst).Nodup := by
    simpa using nodup_keys_dictOfRows (dataRows c)
  have hkeys := mergeLoop_ok_keys (fileDict p) (fileDict s) (fileDict c) [] m hnd hm
  rw [List.map_nil, List.nil_append] at hkeys
  have hndm : (m.map Prod.fst).Nodup := by
    rw [hkeys]
    exact List.Nodup.filter _ (by simpa using hnd)
  have h1 := species_fold_countries q m [] lst hst
  rw [List.map_nil, List.nil_append] at h1
  rw [h1, filter_map_fst_eq (fun r => decide (r.sub_region = Cell.str q)) m hndm, hkeys]
  have hfk : (fileDict c).map Prod.fst = dedupFirst ((dataRows c).map rowKey) := by
    unfold fileDict
    exact keys_dictOfRows _
  rw [hfk]
  congr 1
  apply List.filter_congr
  intro k _
  rw [Bool.eq_iff_iff]
  constructor
  · intro hb
    rcases Bool.and_eq_true_iff.mp hb with ⟨h1b, h2b⟩
    exact Bool.and_eq_true_iff.mpr ⟨(dget_isSome_iff.mp h1b), (dget_isSome_iff.mp h2b)⟩
  · intro hb
    rcases Bool.and_eq_true_iff.mp hb with ⟨h1b, h2b⟩
    exact Bool.and_eq_true_iff.mpr ⟨(dget_isSome_iff.mpr h1b), (dget_isSome_iff.mpr h2b)⟩

/-- Witness for C8 on concrete files: countries X and Y match sub-region s,
in country-file order. -/
theorem C8_species_order_witness :
    ([{ country := Cell.str ['X'], avg_species := 3, total_species := 3,
        species_per_sq_km := 3 / 10 },
      { country := Cell.str ['Y'], avg_species := 4, total_species := 4,
        species_per_sq_km := 1 / 5 }] : List SpeciesStat).map (fun st => st.country) =
      ((dedupFirst ((dataRows ("K,R,S,A\nX,r,s,10\nY,r,s,20\nZ,r,t,30\n".data)).map rowKey)).filter
          (fun k => dmem (fileDict ("K,P\nX,5\nY,6\nZ,7\n".data)) k &&
            dmem (fileDict ("K,T\nX,3\nY,4\nZ,5\n".data)) k)).filter
        (fun k => Option.any (fun r => r.sub_region = Cell.str ['s'])
          (dget? [(Cell.str ['X'],
              ({ region := Cell.str ['r'], sub_region := Cell.str ['s'], area := 10,
                 population := [5], species := [3] } : CountryRecord)),
            (Cell.str ['Y'],
              ({ region := Cell.str ['r'], sub_region := Cell.str ['s'], area := 20,
                 population := [6], species := [4] } : CountryRecord)),
            (Cell.str ['Z'],
              ({ region := Cell.str ['r'], sub_region := Cell.str ['t'], area := 30,
                 population := [7], species := [5] } : CountryRecord))] k)) := by
  refine C8_species_order ("K,R,S,A\nX,r,s,10\nY,r,s,20\nZ,r,t,30\n".data)
    ("K,P\nX,5\nY,6\nZ,7\n".data) ("K,T\nX,3\nY,4\nZ,5\n".data) ['s']
    [(Cell.str ['X'],
      { region := Cell.str ['r'], sub_region := Cell.str ['s'], area := 10,
        population := [5], species := [3] }),
     (Cell.str ['Y'],
      { region := Cell.str ['r'], sub_region := Cell.str ['s'], area := 20,
        population := [6], species := [4] }),
     (Cell.str ['Z'],
      { region := Cell.str ['r'], sub_region := Cell.str ['t'], area := 30,
        population := [7], species := [5] })]
    _ (by rfl) ?_
  have hgood : ∀ kv ∈ ([(Cell.str ['X'],
      { region := Cell.str ['r'], sub_region := Cell.str ['s'], area := 10,
        population := [5], species := [3] }),
     (Cell.str ['Y'],
      { region := Cell.str ['r'], sub_region := Cell.str ['s'], area := 20,
        population := [6], species := [4] }),
     (Cell.str ['Z'],
      { region := Cell.str ['r'], sub_region := Cell.str ['t'], area := 30,
        population := [7], species := [5] })] : Dict CountryRecord),
      kv.2.sub_region = Cell.str ['s'] → kv.2.species ≠ [] ∧ kv.2.area ≠ 0 := by
    intro kv hm hsub
    fin_cases hm
    · exact ⟨by simp, by norm_num⟩
    · exact ⟨by simp, by norm_num⟩
    · exact ⟨by simp, by norm_num⟩
  have h := species_fold ['s'] _ [] hgood
  unfold calculate_species_statistics
  rw [h]
  norm_num [statOf]
  decide

/-! ### Claim C7: series lengths in merged records -/

theorem mapM_ok_length {α β : Type} (f : α → Except PyError β) :
    ∀ (l : List α) (res : List β), l.mapM f = Except.ok res → res.length = l.length := by
  intro l
  induction l with
  | nil =>
    intro res h
    have h0 : (pure [] : Except PyError (List β)) = Except.ok [] := rfl
    rw [List.mapM_nil, h0] at h
    cases h
    rfl
  | cons a t ih =>
    intro res h
    rw [List.mapM_cons] at h
    cases hf : f a with
    | error e => rw [hf, exceptError_bind] at h; cases h
    | ok b =>
      rw [hf, exceptOk_bind] at h
      cases ht : t.mapM f with
      | error e => rw [ht, exceptError_bind] at h; cases h
      | ok bs =>
        rw [ht, exceptOk_bind] at h
        have h2 : (pure (b :: bs) : Except PyError (List β)) = Except.ok (b :: bs) := rfl
        rw [h2] at h
        cases h
        simp [ih bs ht]

theorem mergeRecord_ok_parts (crow prow srow : List Cell) (r : CountryRecord)
    (h : mergeRecord crow prow srow = Except.ok r) :
    ∃ pres sres, prow.mapM pyFloat = Except.ok pres ∧ srow.mapM pyInt = Except.ok sres ∧
      r.population = pres ∧ r.species = sres := by
  unfold mergeRecord at h
  cases h0 : listIdx crow 0 with
  | error e => rw [h0, exceptError_bind] at h; cases h
  | ok region =>
    rw [h0, exceptOk_bind] at h
    cases h1 : listIdx crow 1 with
    | error e => rw [h1, exceptError_bind] at h; cases h
    | ok sub =>
      rw [h1, exceptOk_bind] at h
      cases h2 : listIdx crow 2 with
      | error e => rw [h2, exceptError_bind] at h; cases h
      | ok areaCell =>
        rw [h2, exceptOk_bind] at h
        cases h3 : pyFloat areaCell with
        | error e => rw [h3, exceptError_bind] at h; cases h
        | ok area =>
          rw [h3, exceptOk_bind] at h
          cases h4 : prow.mapM pyFloat with
          | error e => rw [h4, exceptError_bind] at h; cases h
          | ok pres =>
            rw [h4, exceptOk_bind] at h
            cases h5 : srow.mapM pyInt with
            | error e => rw [h5, exceptError_bind] at h; cases h
            | ok sres =>
              rw [h5, exceptOk_bind] at h
              injection h with h6
              subst h6
              exact ⟨pres, sres, rfl, rfl, rfl, rfl⟩

/-- Lookup in a file dictionary comes from some data row of that file. -/
theorem dget_fileDict_row {content : List Char} {k : Cell} {flds : List Cell}
    (h : dget? (fileDict content) k = some flds) :
    ∃ row ∈ dataRows content, rowKey row = k ∧ flds = row.drop 1 := by
  unfold fileDict at h
  rw [dget_dictOfRows] at h
  cases hf : (dataRows content).reverse.find? (fun row => rowKey row = k) with
  | none => rw [hf] at h; cases h
  | some row =>
    rw [hf] at h
    cases h
    refine ⟨row, List.mem_reverse.mp (List.mem_of_find?_eq_some hf), ?_, rfl⟩
    simpa using List.find?_some hf

/-- The amendment of claim C7 that the code supports: when all data rows of
the population file and of the species file have the same field count
n ≥ 2, every merged record carries population and species sequences of the
common length n − 1, in particular non-empty and aligned across records.
The original claim is false without the row-length hypotheses: the code
never checks them (see the counterexample). -/
theorem C7_amended_series_alignment (c p s : List Char) (m : Dict CountryRecord) (n : ℕ)
    (hm : merge_data (some c) (some p) (some s) = Except.ok m)
    (hp : ∀ row ∈ dataRows p, row.length = n)
    (hs : ∀ row ∈ dataRows s, row.length = n)
    (hn : 2 ≤ n) :
    ∀ kv ∈ m, kv.2.population.length = n - 1 ∧ kv.2.species.length = n - 1 ∧
      kv.2.population ≠ [] ∧ kv.2.species ≠ [] := by
  intro kv hkv
  rw [merge_data_some] at hm
  have hnd0 : (([] : Dict CountryRecord).map Prod.fst ++ (fileDict c).map Prod.fst).Nodup := by
    simpa using nodup_keys_dictOfRows (dataRows c)
  have hkeys := mergeLoop_ok_keys (fileDict p) (fileDict s) (fileDict c) [] m hnd0 hm
  rw [List.map_nil, List.nil_append] at hkeys
  have hndm : (m.map Prod.fst).Nodup := by
    rw [hkeys]
    exact List.Nodup.filter _ (by simpa using hnd0)
  have hget : dget? m kv.1 = some kv.2 := dget_of_mem_nodup m hndm kv hkv
  rcases mergeLoop_ok_lookup (fileDict p) (fileDict s) (fileDict c) [] m hm kv.1 kv.2 hget
    with hnone | ⟨crow, prow, srow, hmemc, hpd, hsd, hmr⟩
  · simp [dget?] at hnone
  · rcases dget_fileDict_row hpd with ⟨prowFull, hpmem, _, hpdrop⟩
    rcases dget_fileDict_row hsd with ⟨srowFull, hsmem, _, hsdrop⟩
    rcases mergeRecord_ok_parts crow prow srow kv.2 hmr
      with ⟨pres, sres, hpm, hsm, hpe, hse⟩
    have hl1 : pres.length = prow.length := mapM_ok_length pyFloat prow pres hpm
    have hl2 : sres.length = srow.length := mapM_ok_length pyInt srow sres hsm
    have hplen : prow.length = n - 1 := by
      rw [hpdrop, List.length_drop, hp prowFull hpmem]
    have hslen : srow.length = n - 1 := by
      rw [hsdrop, List.length_drop, hs srowFull hsmem]
    have hppos : 0 < pres.length := by omega
    have hspos : 0 < sres.length := by omega
    refine ⟨by rw [hpe]; omega, by rw [hse]; omega, ?_, ?_⟩
    · rw [hpe]
      exact List.length_pos.mp hppos
    · rw [hse]
      exact List.length_pos.mp hspos

/-- The record populated for the concrete input of the C7 theorems. -/
def c7rec : CountryRecord :=
  { region := Cell.str ['r'], sub_region := Cell.str ['s'], area := 10,
    population := [5, 7], species := [3, 4] }

/-- Witness for the amended C7 on concrete files with three columns in the
population and species files. -/
theorem C7_amended_witness :
    c7rec.population.length = 3 - 1 ∧ c7rec.species.length = 3 - 1 ∧
      c7rec.population ≠ [] ∧ c7rec.species ≠ [] :=
  C7_amended_series_alignment ("K,R,S,A\nX,r,s,10\n".data) ("K,P1,P2\nX,5,7\n".data)
    ("K,T1,T2\nX,3,4\n".data) [(Cell.str ['X'], c7rec)] 3 (by rfl)
    (by decide) (by decide) (by decide) (Cell.str ['X'], c7rec) (by decide)

/-- Counterexample to claim C7 as stated: on these three well-formed files
merge_data succeeds, yet the single merged record has an empty population
sequence and a one-element species sequence — the sequences are neither
non-empty nor of equal length. -/
theorem C7_counterexample :
    Except.map (fun m : Dict CountryRecord =>
        m.map (fun kv => (kv.2.population.length, kv.2.species.length)))
      (merge_data (some ("K,R,S,A\nX,r,s,10\n".data)) (some ("K,P\nX\n".data))
        (some ("K,S\nX,3\n".data))) =
      Except.ok [(0, 1)] := by
  rfl

/-! ### Claim C5: error conditions of merge_data -/

theorem mapM_error_iff {α β : Type} (f : α → Except PyError β) :
    ∀ l : List α,
    (∃ e, l.mapM f = Except.error e) ↔ ∃ x ∈ l, ∃ e, f x = Except.error e := by
  intro l
  induction l with
  | nil =>
    constructor
    · rintro ⟨e, he⟩
      have h0 : (([] : List α).mapM f) = Except.ok [] := rfl
      rw [h0] at he
      cases he
    · rintro ⟨x, hx, _⟩
      simp at hx
  | cons a t ih =>
    rw [List.mapM_cons]
    cases hf : f a with
    | error e =>
      constructor
      · intro _
        exact ⟨a, List.mem_cons_self a t, e, hf⟩
      · intro _
        exact ⟨e, by rw [exceptError_bind]⟩
    | ok b =>
      cases ht : t.mapM f with
      | error e =>
        constructor
        · intro _
          rcases ih.mp ⟨e, ht⟩ with ⟨x, hx, e2, hfe⟩
          exact ⟨x, List.mem_cons_of_mem a hx, e2, hfe⟩
        · intro _
          exact ⟨e, by rw [exceptOk_bind, exceptError_bind]⟩
      | ok bs =>
        constructor
        · rintro ⟨e, he⟩
          rw [exceptOk_bind, exceptOk_bind] at he
          have h0 : (pure (b :: bs) : Except PyError (List β)) = Except.ok (b :: bs) := rfl
          rw [h0] at he
          cases he
        · rintro ⟨x, hx, e2, hfe⟩
          rcases List.mem_cons.mp hx with rfl | hx2
          · rw [hf] at hfe
            cases hfe
          · rcases ih.mpr ⟨x, hx2, e2, hfe⟩ with ⟨e3, he3⟩
            rw [ht] at he3
            cases he3

/-- The ways the record construction of src/design_project.py lines 29-35
can raise for a joined country: a country row with fewer than four columns
(fewer than three after the key), an area field Python float() rejects, a
population field float() rejects, or a species field int() rejects. -/
def rowConversionFailure (crow prow srow : List Cell) : Prop :=
  crow.length < 3 ∨
  (∃ a, crow.get? 2 = some a ∧ ∃ e, pyFloat a = Except.error e) ∨
  (∃ x ∈ prow, ∃ e, pyFloat x = Except.error e) ∨
  (∃ x ∈ srow, ∃ e, pyInt x = Except.error e)

theorem mergeRecord_error_iff (crow prow srow : List Cell) :
    (∃ e, mergeRecord crow prow srow = Except.error e) ↔
      rowConversionFailure crow prow srow := by
  unfold rowConversionFailure
  rcases crow with _ | ⟨a0, _ | ⟨a1, _ | ⟨a2, t⟩⟩⟩
  · exact iff_of_true ⟨PyError.indexError, rfl⟩ (Or.inl (by simp))
  · exact iff_of_true ⟨PyError.indexError, rfl⟩ (Or.inl (by simp))
  · exact iff_of_true ⟨PyError.indexError, rfl⟩ (Or.inl (by simp))
  · have heq : mergeRecord (a0 :: a1 :: a2 :: t) prow srow =
        (pyFloat a2 >>= fun area => prow.mapM pyFloat >>= fun population =>
          srow.mapM pyInt >>= fun species =>
            Except.ok { region := a0, sub_region := a1, area := area,
                        population := population, species := species }) := rfl
    have hlen : ¬ (a0 :: a1 :: a2 :: t).length < 3 := by simp
    have hget : (a0 :: a1 :: a2 :: t).get? 2 = some a2 := rfl
    cases hf : pyFloat a2 with
    | error e =>
      refine iff_of_true ⟨e, ?_⟩ (Or.inr (Or.inl ⟨a2, hget, e, hf⟩))
      rw [heq, hf, exceptError_bind]
    | ok area =>
      cases hpm : prow.mapM pyFloat with
      | error e =>
        refine iff_of_true ⟨e, ?_⟩ ?_
        · rw [heq, hf, exceptOk_bind, hpm, exceptError_bind]
        · rcases (mapM_error_iff pyFloat prow).mp ⟨e, hpm⟩ with ⟨x, hx, e2, hfe⟩
          exact Or.inr (Or.inr (Or.inl ⟨x, hx, e2, hfe⟩))
      | ok pres =>
        cases hsm : srow.mapM pyInt with
        | error e =>
          refine iff_of_true ⟨e, ?_⟩ ?_
          · rw [heq, hf, exceptOk_bind, hpm, exceptOk_bind, hsm, exceptError_bind]
          · rcases (mapM_error_iff pyInt srow).mp ⟨e, hsm⟩ with ⟨x, hx, e2, hfe⟩
            exact Or.inr (Or.inr (Or.inr ⟨x, hx, e2, hfe⟩))
        | ok sres =>
          apply iff_of_false
          · rintro ⟨e, he⟩
            rw [heq, hf, exceptOk_bind, hpm, exceptOk_bind, hsm, exceptOk_bind] at he
            cases he
          · rintro (h | ⟨a, ha, e, hfe⟩ | h3 | h4)
            · exact hlen h
            · rw [hget] at ha
              cases ha
              rw [hf] at hfe
              cases hfe
            · rcases (mapM_error_iff pyFloat prow).mpr h3 with ⟨e3, he3⟩
              rw [hpm] at he3
              cases he3
            · rcases (mapM_error_iff pyInt srow).mpr h4 with ⟨e4, he4⟩
              rw [hsm] at he4
              cases he4

/-- The merge loop raises exactly when some country present in all three
dictionaries has a row whose conversion raises. -/
theorem mergeLoop_error_iff (pd sd : Dict (List Cell)) :
    ∀ (cd : Dict (List Cell)) (m0 : Dict CountryRecord),
    (∃ e, List.foldlM (mergeStep pd sd) m0 cd = Except.error e) ↔
      ∃ kv ∈ cd, ∃ prow srow, dget? pd kv.1 = some prow ∧ dget? sd kv.1 = some srow ∧
        ∃ e, mergeRecord kv.2 prow srow = Except.error e := by
  intro cd
  induction cd with
  | nil =>
    intro m0
    constructor
    · rintro ⟨e, he⟩
      have h0 : (List.foldlM (mergeStep pd sd) m0 []) = Except.ok m0 := rfl
      rw [h0] at he
      cases he
    · rintro ⟨kv, hkv, _⟩
      simp at hkv
  | cons kv rest ih =>
    intro m0
    rw [List.foldlM_cons]
    cases hp : dget? pd kv.1 with
    | none =>
      rw [mergeStep_pnone hp, exceptOk_bind, ih m0]
      constructor
      · rintro ⟨kv2, hm, rest2⟩
        exact ⟨kv2, List.mem_cons_of_mem kv hm, rest2⟩
      · rintro ⟨kv2, hm, prow, srow, hp2, hs2, he⟩
        rcases List.mem_cons.mp hm with rfl | hm2
        · rw [hp] at hp2
          cases hp2
        · exact ⟨kv2, hm2, prow, srow, hp2, hs2, he⟩
    | some prow =>
      cases hs : dget? sd kv.1 with
      | none =>
        rw [mergeStep_snone hs, exceptOk_bind, ih m0]
        constructor
        · rintro ⟨kv2, hm, rest2⟩
          exact ⟨kv2, List.mem_cons_of_mem kv hm, rest2⟩
        · rintro ⟨kv2, hm, prow2, srow2, hp2, hs2, he⟩
          rcases List.mem_cons.mp hm with rfl | hm2
          · rw [hs] at hs2
            cases hs2
          · exact ⟨kv2, hm2, prow2, srow2, hp2, hs2, he⟩
      | some srow =>
        rw [mergeStep_some_some hp hs]
        cases hmr : mergeRecord kv.2 prow srow with
        | error e =>
          rw [exceptError_bind, exceptError_bind]
          exact iff_of_true ⟨e, rfl⟩
            ⟨kv, List.mem_cons_self kv rest, prow, srow, hp, hs, e, hmr⟩
        | ok r =>
          rw [exceptOk_bind, exceptOk_bind, ih (dinsert m0 kv.1 r)]
          constructor
          · rintro ⟨kv2, hm, rest2⟩
            exact ⟨kv2, List.mem_cons_of_mem kv hm, rest2⟩
          · rintro ⟨kv2, hm, prow2, srow2, hp2, hs2, e2, he2⟩
            rcases List.mem_cons.mp hm with rfl | hm2
            · rw [hp] at hp2
              rw [hs] at hs2
              cases hp2
              cases hs2
              rw [hmr] at he2
              cases he2
            · exact ⟨kv2, hm2, prow2, srow2, hp2, hs2, e2, he2⟩

/-- A joined country whose rows cannot be converted, in the three files'
dictionaries. -/
def mergeFailure (c p s : List Char) : Prop :=
  ∃ kv ∈ fileDict c, ∃ prow srow,
    dget? (fileDict p) kv.1 = some prow ∧ dget? (fileDict s) kv.1 = some srow ∧
    rowConversionFailure kv.2 prow srow

/-- The amendment of claim C5 that the code supports: merge_data propagates
an error exactly when one of the three files is missing, or some country
present in all three files has a country row with fewer than four columns
(an IndexError the original claim does not mention), or a required numeric
field — area, a population value, or a species value — is rejected by
Python's float()/int() conversion. Unlike the reader's
non-negative-decimal test, float() and int() (modelled here in full on
ASCII input) also accept signed numerals, underscore-grouped digits and,
for float(), exponent notation and the inf/infinity/nan spellings. -/
theorem C5_amended_error_conditions (cf pf sf : Option (List Char)) :
    (∃ e, merge_data cf pf sf = Except.error e) ↔
      cf = none ∨ pf = none ∨ sf = none ∨
      (∃ c p s, cf = some c ∧ pf = some p ∧ sf = some s ∧ mergeFailure c p s) := by
  cases cf with
  | none => exact iff_of_true ⟨PyError.fileNotFound, rfl⟩ (Or.inl rfl)
  | some c =>
    cases pf with
    | none => exact iff_of_true ⟨PyError.fileNotFound, rfl⟩ (Or.inr (Or.inl rfl))
    | some p =>
      cases sf with
      | none => exact iff_of_true ⟨PyError.fileNotFound, rfl⟩ (Or.inr (Or.inr (Or.inl rfl)))
      | some s =>
        rw [merge_data_some, mergeLoop_error_iff (fileDict p) (fileDict s) (fileDict c) []]
        constructor
        · rintro ⟨kv, hm, prow, srow, h1, h2, he⟩
          exact Or.inr (Or.inr (Or.inr ⟨c, p, s, rfl, rfl, rfl, kv, hm, prow, srow, h1, h2,
            (mergeRecord_error_iff kv.2 prow srow).mp he⟩))
        · rintro (hc | hp2 | hs2 |
            ⟨c0, p0, s0, hc0, hp0, hs0, kv, hm, prow, srow, h1, h2, hfail⟩)
          · cases hc
          · cases hp2
          · cases hs2
          · cases hc0
            cases hp0
            cases hs0
            exact ⟨kv, hm, prow, srow, h1, h2,
              (mergeRecord_error_iff kv.2 prow srow).mpr hfail⟩

/-- Counterexample to claim C5 as stated, refuting both directions of its
"exactly when". First: all three files are present and every field that
reaches a numeric conversion converts, yet merge_data propagates an
IndexError because the joined country's row in the country file has only
two columns. Second: the population field -5 cannot be parsed as the spec
specifies (it is not a non-negative decimal, witness the second conjunct),
so the claim demands an error, yet merge_data returns normally, because
Python's float() accepts signed numerals. -/
theorem C5_counterexample :
    (merge_data (some ("K,R,S,A\nX,EU\n".data)) (some ("K,P\nX,5\n".data))
      (some ("K,S\nX,3\n".data)) = Except.error PyError.indexError) ∧
    specNonnegDecimal (trimChars ("-5".data)) = false ∧
    (merge_data (some ("K,R,S,A\nY,r,s,10\n".data)) (some ("K,P\nY,-5\n".data))
      (some ("K,S\nY,3\n".data))).isOk = true := by
  exact ⟨rfl, by decide, rfl⟩

/-! ### Claim C9: the writer and the round-trip -/

/-- The decimal digit characters. -/
def digitChar : ℕ → Char
  | 0 => '0'
  | 1 => '1'
  | 2 => '2'
  | 3 => '3'
  | 4 => '4'
  | 5 => '5'
  | 6 => '6'
  | 7 => '7'
  | 8 => '8'
  | 9 => '9'
  | _ => '0'

/-- Decimal digits of a natural number, most significant first
(the digits Python's `str` prints for the integer part). -/
def natDigits (n : ℕ) : List Char :=
  if h : n < 10 then [digitChar n]
  else natDigits (n / 10) ++ [digitChar (n % 10)]
decreasing_by
  exact Nat.div_lt_self (by omega) (by omega)

/-- Left-pad a digit string with zeros to the given width. -/
def padZeros (k : ℕ) (l : List Char) : List Char :=
  List.replicate (k - l.length) '0' ++ l

/-- The smallest exponent (searched up to 63) that makes the rational an
integer multiple of a power of ten: the number of decimal places Python's
`str` prints for a float with a finite decimal expansion. `none` lies
outside the modelled fragment (Python would print a long expansion or
scientific notation there). -/
def decExp (q : ℚ) : Option ℕ := (List.range 64).find? (fun k => (q * 10 ^ k).den = 1)

/-- The positional decimal rendering of a non-negative rational with a
finite decimal expansion: integer digits, a dot, and the fractional digits
(Python always prints at least one fractional digit, e.g.
`str(5.0) == "5.0"`). The writer model applies it only to values inside
Python's positional printing range, see `floatStr`. -/
def posRatStr (q : ℚ) : List Char :=
  match decExp q with
  | some 0 => natDigits q.num.toNat ++ '.' :: ['0']
  | some (k + 1) =>
    natDigits ((q * 10 ^ (k + 1)).num.toNat / 10 ^ (k + 1)) ++
      '.' :: padZeros (k + 1) (natDigits ((q * 10 ^ (k + 1)).num.toNat % 10 ^ (k + 1)))
  | none => []

/-- Python prints a float positionally (digits with a decimal point)
exactly when it is zero or its magnitude lies in [1e-4, 1e16); outside that
range `str()` switches to scientific notation (`str(10.0 ** 16)` is
`'1e+16'`, `str(10.0 ** -5)` is `'1e-05'`). -/
def printsPositional (q : ℚ) : Bool :=
  decide (q = 0) || (decide (1 / 10 ^ 4 ≤ q) && decide (q < 10 ^ 16))

/-- Python `str()` of a non-negative float: the positional decimal
rendering when the value is zero or in [1e-4, 1e16). The
scientific-notation branch Python uses outside that range is not rendered
by the model; such values are excluded from `goodCell`, and rightly so —
they genuinely fail the round-trip, since the reader classifies a numeral
like `'1e+16'` as a plain string. -/
def floatStr (q : ℚ) : List Char :=
  if printsPositional q then posRatStr q else []

/-- Python `str()` of a parsed field, as written by write_csv: a string
prints as itself, a float as its decimal rendering (negative floats get a
leading minus sign). -/
def cellStr : Cell → List Char
  | Cell.str s => s
  | Cell.num q => if q < 0 then '-' :: floatStr (-q) else floatStr q

/-- Python `','.join(fields)` (src/user_csv.py line 38). -/
def joinCommas : List (List Char) → List Char
  | [] => []
  | [x] => x
  | x :: y :: t => x ++ ',' :: joinCommas (y :: t)

/-- Concatenation of the written lines. -/
def concatAll : List (List Char) → List Char
  | [] => []
  | l :: ls => l ++ concatAll ls

/-- src/user_csv.py `write_csv` (lines 26-39) with `overwrite = True`: the
contents of the fresh file are the comma-joined stringified rows, each
terminated by a newline. -/
def write_csv (data : List (List Cell)) : List Char :=
  concatAll (data.map (fun row => joinCommas (row.map cellStr) ++ ['\n']))

/-- Counterexample to claim C9 as stated: a one-field row whose string field
contains a comma is written verbatim and read back as two fields, so the
round-trip does not reproduce the table. -/
theorem C9_counterexample :
    read_csv (write_csv [[Cell.str ['a', ',', 'b']]]) true ≠ [[Cell.str ['a', ',', 'b']]] := by
  decide

theorem digitChar_mem (d : ℕ) :
    digitChar d ∈ (['0', '1', '2', '3', '4', '5', '6', '7', '8', '9'] : List Char) := by
  rcases d with _|_|_|_|_|_|_|_|_|_|d <;> first
    | decide
    | exact List.Mem.head _

theorem digitChar_props (d : ℕ) :
    (digitChar d).isDigit = true ∧ isSpaceChar (digitChar d) = false ∧
      digitChar d ≠ '.' ∧ digitChar d ≠ ',' ∧ digitChar d ≠ '\n' := by
  have hall : ∀ c ∈ (['0', '1', '2', '3', '4', '5', '6', '7', '8', '9'] : List Char),
      c.isDigit = true ∧ isSpaceChar c = false ∧ c ≠ '.' ∧ c ≠ ',' ∧ c ≠ '\n' := by
    decide
  exact hall _ (digitChar_mem d)

theorem digitChar_toNat {d : ℕ} (h : d < 10) : (digitChar d).toNat - 48 = d := by
  interval_cases d <;> decide

theorem natDigits_ne_nil (n : ℕ) : natDigits n ≠ [] := by
  rw [natDigits]
  by_cases h : n < 10
  · simp [h]
  · simp [h]

theorem natDigits_chars : ∀ n : ℕ, ∀ c ∈ natDigits n, ∃ d, c = digitChar d := by
  intro n
  induction n using Nat.strong_induction_on with
  | _ n ih =>
    intro c hc
    rw [natDigits] at hc
    by_cases h : n < 10
    · rw [dif_pos h] at hc
      rcases List.mem_singleton.mp hc with rfl
      exact ⟨n, rfl⟩
    · rw [dif_neg h] at hc
      rcases List.mem_append.mp hc with hc2 | hc2
      · exact ih (n / 10) (Nat.div_lt_self (by omega) (by omega)) c hc2
      · rcases List.mem_singleton.mp hc2 with rfl
        exact ⟨n % 10, rfl⟩

theorem digitsToNat_append_one (l : List Char) (c : Char) :
    digitsToNat (l ++ [c]) = 10 * digitsToNat l + (c.toNat - 48) := by
  unfold digitsToNat
  rw [List.foldl_append]
  rfl

theorem digitsToNat_natDigits : ∀ n : ℕ, digitsToNat (natDigits n) = n := by
  intro n
  induction n using Nat.strong_induction_on with
  | _ n ih =>
    rw [natDigits]
    by_cases h : n < 10
    · rw [dif_pos h]
      have h1 : digitsToNat [digitChar n] = (digitChar n).toNat - 48 := by
        unfold digitsToNat
        simp
      rw [h1, digitChar_toNat h]
    · rw [dif_neg h]
      rw [digitsToNat_append_one, ih (n / 10) (Nat.div_lt_self (by omega) (by omega)),
        digitChar_toNat (Nat.mod_lt n (by omega))]
      omega

theorem natDigits_length_le : ∀ (n k : ℕ), n < 10 ^ k → 1 ≤ k → (natDigits n).length ≤ k := by
  intro n
  induction n using Nat.strong_induction_on with
  | _ n ih =>
    intro k hnk hk
    rw [natDigits]
    by_cases h : n < 10
    · rw [dif_pos h]
      simpa using hk
    · rw [dif_neg h]
      have hk2 : 2 ≤ k := by
        by_contra hc
        have hk1 : k = 1 := by omega
        rw [hk1] at hnk
        simp at hnk
        omega
      have hdiv : n / 10 < 10 ^ (k - 1) := by
        rw [Nat.div_lt_iff_lt_mul (by omega : 0 < 10)]
        calc n < 10 ^ k := hnk
        _ = 10 ^ (k - 1) * 10 := by
          rw [← pow_succ]
          congr 1
          omega
      have := ih (n / 10) (Nat.div_lt_self (by omega) (by omega)) (k - 1) hdiv (by omega)
      rw [List.length_append]
      simp only [List.length_singleton]
      omega

theorem digitsToNat_replicate_zero (j : ℕ) (l : List Char) :
    digitsToNat (List.replicate j '0' ++ l) = digitsToNat l := by
  induction j with
  | zero => rfl
  | succ j ih =>
    have h : List.replicate (j + 1) '0' ++ l = '0' :: (List.replicate j '0' ++ l) := by
      simp [List.replicate]
    rw [h]
    unfold digitsToNat at ih ⊢
    simpa using ih

theorem padZeros_length {k : ℕ} {l : List Char} (h : l.length ≤ k) :
    (padZeros k l).length = k := by
  unfold padZeros
  rw [List.length_append, List.length_replicate]
  omega

theorem digitsToNat_padZeros (k : ℕ) (l : List Char) :
    digitsToNat (padZeros k l) = digitsToNat l :=
  digitsToNat_replicate_zero _ l

theorem padZeros_chars {k : ℕ} {l : List Char} {c : Char} (hc : c ∈ padZeros k l) :
    c = '0' ∨ c ∈ l := by
  unfold padZeros at hc
  rcases List.mem_append.mp hc with h | h
  · exact Or.inl (List.eq_of_mem_replicate h)
  · exact Or.inr h

theorem splitCommas_ne_nil : ∀ l : List Char, splitCommas l ≠ [] := by
  intro l
  induction l with
  | nil => simp [splitCommas]
  | cons c cs ih =>
    unfold splitCommas
    cases hr : splitCommas cs with
    | nil => exact absurd hr ih
    | cons r rs =>
      by_cases hc : c = ','
      · simp [hc]
      · simp [hc]

theorem splitCommas_cons (c : Char) (cs : List Char) :
    splitCommas (c :: cs) =
      match splitCommas cs with
      | [] => [[]]
      | r :: rs => if c = ',' then [] :: r :: rs else (c :: r) :: rs := rfl

theorem splitCommas_no_comma : ∀ a : List Char, ',' ∉ a → splitCommas a = [a] := by
  intro a
  induction a with
  | nil => intro _; rfl
  | cons c cs ih =>
    intro h
    have hc : ¬ c = ',' := fun he => h (he ▸ List.mem_cons_self c cs)
    have hcs : ',' ∉ cs := fun hm => h (List.mem_cons_of_mem c hm)
    rw [splitCommas_cons, ih hcs]
    simp [hc]

theorem splitCommas_append (a r : List Char) (h : ',' ∉ a) :
    splitCommas (a ++ ',' :: r) = a :: splitCommas r := by
  induction a with
  | nil =>
    simp only [List.nil_append]
    rw [splitCommas_cons]
    cases hr : splitCommas r with
    | nil => exact absurd hr (splitCommas_ne_nil r)
    | cons x xs => simp
  | cons c cs ih =>
    have hc : ¬ c = ',' := fun he => h (he ▸ List.mem_cons_self c cs)
    have hcs : ',' ∉ cs := fun hm => h (List.mem_cons_of_mem c hm)
    rw [List.cons_append, splitCommas_cons, ih hcs]
    simp [hc]

theorem joinCommas_split : ∀ parts : List (List Char), parts ≠ [] →
    (∀ part ∈ parts, ',' ∉ part) → splitCommas (joinCommas parts) = parts := by
  intro parts
  induction parts with
  | nil => intro h _; exact absurd rfl h
  | cons x t ih =>
    intro _ hparts
    cases t with
    | nil => exact splitCommas_no_comma x (hparts x (List.mem_cons_self x []))
    | cons y t2 =>
      have hjoin : joinCommas (x :: y :: t2) = x ++ ',' :: joinCommas (y :: t2) := rfl
      rw [hjoin, splitCommas_append _ _ (hparts x (List.mem_cons_self x (y :: t2)))]
      rw [ih (by simp) (fun p hp => hparts p (List.mem_cons_of_mem x hp))]

theorem pyLines_cons (c : Char) (cs : List Char) :
    pyLines (c :: cs) =
      if c = '\n' then [] :: pyLines cs
      else
        match pyLines cs with
        | [] => [[c]]
        | l :: ls => (c :: l) :: ls := rfl

theorem pyLines_append (b rest : List Char) (h : '\n' ∉ b) :
    pyLines (b ++ '\n' :: rest) = b :: pyLines rest := by
  induction b with
  | nil =>
    simp only [List.nil_append]
    rw [pyLines_cons]
    simp
  | cons c cs ih =>
    have hc : ¬ c = '\n' := fun he => h (he ▸ List.mem_cons_self c cs)
    have hcs : '\n' ∉ cs := fun hm => h (List.mem_cons_of_mem c hm)
    rw [List.cons_append, pyLines_cons, if_neg hc, ih hcs]

theorem no_newline_joinCommas (parts : List (List Char))
    (h : ∀ part ∈ parts, '\n' ∉ part) : '\n' ∉ joinCommas parts := by
  induction parts with
  | nil => simp [joinCommas]
  | cons x t ih =>
    cases t with
    | nil => exact h x (List.mem_cons_self x [])
    | cons y t2 =>
      have hjoin : joinCommas (x :: y :: t2) = x ++ ',' :: joinCommas (y :: t2) := rfl
      rw [hjoin]
      intro hm
      rcases List.mem_append.mp hm with hm2 | hm2
      · exact h x (List.mem_cons_self x (y :: t2)) hm2
      · rcases List.mem_cons.mp hm2 with he | hm3
        · exact absurd he (by decide)
        · exact ih (fun p hp => h p (List.mem_cons_of_mem x hp)) hm3

theorem dropWhile_eq_self_of_all {α : Type} (p : α → Bool) (l : List α)
    (h : ∀ c ∈ l, p c = false) : l.dropWhile p = l := by
  cases l with
  | nil => rfl
  | cons c cs =>
    exact List.dropWhile_cons_of_neg (by simp [h c (List.mem_cons_self c cs)])

theorem trimChars_eq_self (l : List Char) (h : ∀ c ∈ l, isSpaceChar c = false) :
    trimChars l = l := by
  unfold trimChars
  rw [dropWhile_eq_self_of_all _ _ h,
    dropWhile_eq_self_of_all _ _ (fun c hc => h c (List.mem_reverse.mp hc)),
    List.reverse_reverse]

theorem takeWhile_dropWhile_split (a b : List Char) (p : Char → Bool)
    (ha : ∀ c ∈ a, p c = true) (x : Char) (hx : p x = false) :
    (a ++ x :: b).takeWhile p = a ∧ (a ++ x :: b).dropWhile p = x :: b := by
  induction a with
  | nil =>
    simp only [List.nil_append]
    exact ⟨List.takeWhile_cons_of_neg (by simp [hx]),
      List.dropWhile_cons_of_neg (by simp [hx])⟩
  | cons c cs ih =>
    have hc : p c = true := ha c (List.mem_cons_self c cs)
    have hcs := ih (fun d hd => ha d (List.mem_cons_of_mem c hd))
    rw [List.cons_append]
    constructor
    · rw [List.takeWhile_cons_of_pos hc, hcs.1]
    · rw [List.dropWhile_cons_of_pos hc, hcs.2]

theorem parseCell_digits_dot (ip fp : List Char)
    (hip : ∀ c ∈ ip, c.isDigit = true ∧ isSpaceChar c = false ∧ c ≠ '.')
    (hfp : ∀ c ∈ fp, c.isDigit = true ∧ isSpaceChar c = false ∧ c ≠ '.')
    (hne : ip ≠ []) :
    parseCell (ip ++ '.' :: fp) =
      Cell.num ((digitsToNat ip : ℚ) + (digitsToNat fp : ℚ) / 10 ^ fp.length) := by
  have htrim : trimChars (ip ++ '.' :: fp) = ip ++ '.' :: fp := by
    apply trimChars_eq_self
    intro c hc
    rcases List.mem_append.mp hc with h | h
    · exact (hip c h).2.1
    · rcases List.mem_cons.mp h with rfl | h2
      · decide
      · exact (hfp c h2).2.1
  have hdot_ip : '.' ∉ ip := fun hm => (hip '.' hm).2.2 rfl
  have hrf : removeFirst '.' (ip ++ '.' :: fp) = ip ++ fp :=
    removeFirst_append ip fp '.' hdot_ip
  have hemp : (ip ++ fp).isEmpty = false := by
    cases ip with
    | nil => exact absurd rfl hne
    | cons c cs => rfl
  have hguard : isdigitStr (ip ++ fp) = true := by
    unfold isdigitStr
    rw [hemp, List.all_append]
    simp only [Bool.not_false, Bool.true_and]
    exact Bool.and_eq_true_iff.mpr ⟨List.all_eq_true.mpr (fun c hc => (hip c hc).1),
      List.all_eq_true.mpr (fun c hc => (hfp c hc).1)⟩
  have hsplit := takeWhile_dropWhile_split ip fp (fun c => decide (c ≠ '.'))
    (fun c hc => by simp [(hip c hc).2.2]) '.' (by decide)
  have hval : decimalVal (ip ++ '.' :: fp) =
      (digitsToNat ip : ℚ) + (digitsToNat fp : ℚ) / 10 ^ fp.length := by
    unfold decimalVal
    rw [hsplit.1, hsplit.2]
  show (if isdigitStr (removeFirst '.' (trimChars (ip ++ '.' :: fp)))
      then Cell.num (decimalVal (trimChars (ip ++ '.' :: fp)))
      else Cell.str (trimChars (ip ++ '.' :: fp))) = _
  rw [htrim, hrf, hguard]
  simp [hval]

theorem natDigits_props (n : ℕ) :
    ∀ c ∈ natDigits n, c.isDigit = true ∧ isSpaceChar c = false ∧ c ≠ '.' := by
  intro c hc
  rcases natDigits_chars n c hc with ⟨d, rfl⟩
  exact ⟨(digitChar_props d).1, (digitChar_props d).2.1, (digitChar_props d).2.2.1⟩

theorem padZeros_props (kk m : ℕ) :
    ∀ c ∈ padZeros kk (natDigits m), c.isDigit = true ∧ isSpaceChar c = false ∧ c ≠ '.' := by
  intro c hc
  rcases padZeros_chars hc with rfl | hc2
  · exact ⟨by decide, by decide, by decide⟩
  · exact natDigits_props m c hc2

theorem decExp_spec {q : ℚ} {k : ℕ} (h : decExp q = some k) : (q * 10 ^ k).den = 1 := by
  have := List.find?_some h
  simpa using this

theorem parseCell_posRatStr (q : ℚ) (h0 : 0 ≤ q) {k : ℕ} (hk : decExp q = some k) :
    parseCell (posRatStr q) = Cell.num q := by
  have hden := decExp_spec hk
  cases k with
  | zero =>
    have hden1 : q.den = 1 := by simpa using hden
    have hnumq : ((q.num.toNat : ℤ) : ℚ) = q := by
      rw [Int.toNat_of_nonneg (Rat.num_nonneg.mpr h0)]
      exact (Rat.den_eq_one_iff q).mp hden1
    have hps : posRatStr q = natDigits q.num.toNat ++ '.' :: ['0'] := by
      unfold posRatStr
      rw [hk]
    rw [hps, parseCell_digits_dot _ _ (natDigits_props _)
      (fun c hc => by rcases List.mem_singleton.mp hc with rfl; exact ⟨by decide, by decide, by decide⟩)
      (natDigits_ne_nil _)]
    congr 1
    rw [digitsToNat_natDigits]
    have h00 : digitsToNat ['0'] = 0 := rfl
    rw [h00]
    push_cast
    push_cast at hnumq
    simp [hnumq]
  | succ k =>
    have hps : posRatStr q = natDigits ((q * 10 ^ (k + 1)).num.toNat / 10 ^ (k + 1)) ++
        '.' :: padZeros (k + 1) (natDigits ((q * 10 ^ (k + 1)).num.toNat % 10 ^ (k + 1))) := by
      unfold posRatStr
      rw [hk]
    rw [hps, parseCell_digits_dot _ _ (natDigits_props _) (padZeros_props _ _)
      (natDigits_ne_nil _)]
    congr 1
    have hq10 : (0 : ℚ) ≤ q * 10 ^ (k + 1) := mul_nonneg h0 (by positivity)
    have hNq : (((q * 10 ^ (k + 1)).num.toNat : ℤ) : ℚ) = q * 10 ^ (k + 1) := by
      rw [Int.toNat_of_nonneg (Rat.num_nonneg.mpr hq10)]
      exact (Rat.den_eq_one_iff _).mp hden
    have hlen : (padZeros (k + 1)
        (natDigits ((q * 10 ^ (k + 1)).num.toNat % 10 ^ (k + 1)))).length = k + 1 :=
      padZeros_length (natDigits_length_le _ _ (Nat.mod_lt _ (by positivity)) (by omega))
    rw [hlen, digitsToNat_padZeros, digitsToNat_natDigits, digitsToNat_natDigits]
    have hsplitN := Nat.div_add_mod (q * 10 ^ (k + 1)).num.toNat (10 ^ (k + 1))
    have h10 : ((10 : ℚ) ^ (k + 1)) ≠ 0 := by positivity
    have hcast : (10 : ℚ) ^ (k + 1) * (((q * 10 ^ (k + 1)).num.toNat / 10 ^ (k + 1) : ℕ) : ℚ) +
        (((q * 10 ^ (k + 1)).num.toNat % 10 ^ (k + 1) : ℕ) : ℚ) =
        ((q * 10 ^ (k + 1)).num.toNat : ℚ) := by
      exact_mod_cast hsplitN
    have hqN : (((q * 10 ^ (k + 1)).num.toNat : ℕ) : ℚ) = q * 10 ^ (k + 1) := by
      exact_mod_cast hNq
    rw [eq_comm, ← sub_eq_zero]
    field_simp
    linarith [hcast, hqN]

theorem read_csv_true (content : List Char) :
    read_csv content true = (pyLines content).map (fun line => (splitCommas line).map parseCell) :=
  rfl

/-- A string field that survives the round-trip: already stripped, free of
the comma and newline separators, and not classified numeric by the reader. -/
def strCellOK (s : List Char) : Bool :=
  decide (trimChars s = s) && !(decide (',' ∈ s)) && !(decide ('\n' ∈ s)) &&
    !isdigitStr (removeFirst '.' s)

/-- A field value that survives the round-trip: a good string, or a
non-negative float that Python prints positionally (zero or in
[1e-4, 1e16)) and that has a finite decimal expansion (within the modelled
precision). Values Python prints in scientific notation are excluded: they
are written as text like `'1e+16'` that the reader takes back as a plain
string, so they do not round-trip. -/
def goodCell : Cell → Bool
  | Cell.str s => strCellOK s
  | Cell.num q => decide (0 ≤ q) && printsPositional q && (decExp q).isSome

theorem parseCell_good_str (s : List Char) (h : strCellOK s = true) :
    parseCell s = Cell.str s := by
  unfold strCellOK at h
  rw [Bool.and_eq_true_iff] at h
  rcases h with ⟨h123, h4⟩
  rw [Bool.and_eq_true_iff] at h123
  rcases h123 with ⟨h12, _⟩
  rw [Bool.and_eq_true_iff] at h12
  rcases h12 with ⟨h1, _⟩
  have htrim : trimChars s = s := of_decide_eq_true h1
  have hguard : isdigitStr (removeFirst '.' s) = false := by
    cases hg : isdigitStr (removeFirst '.' s)
    · rfl
    · rw [hg] at h4
      cases h4
  show (if isdigitStr (removeFirst '.' (trimChars s))
      then Cell.num (decimalVal (trimChars s)) else Cell.str (trimChars s)) = _
  rw [htrim, hguard]
  simp

theorem posRatStr_chars {q : ℚ} {k : ℕ} (hk : decExp q = some k) :
    ∀ c ∈ posRatStr q, c = '.' ∨ ∃ d, c = digitChar d := by
  intro c hc
  cases k with
  | zero =>
    rw [show posRatStr q = natDigits q.num.toNat ++ '.' :: ['0'] by unfold posRatStr; rw [hk]]
      at hc
    rcases List.mem_append.mp hc with h | h
    · exact Or.inr (natDigits_chars _ c h)
    · rcases List.mem_cons.mp h with rfl | h2
      · exact Or.inl rfl
      · rcases List.mem_singleton.mp h2 with rfl
        exact Or.inr ⟨0, rfl⟩
  | succ k =>
    rw [show posRatStr q = natDigits ((q * 10 ^ (k + 1)).num.toNat / 10 ^ (k + 1)) ++
        '.' :: padZeros (k + 1) (natDigits ((q * 10 ^ (k + 1)).num.toNat % 10 ^ (k + 1)))
      by unfold posRatStr; rw [hk]] at hc
    rcases List.mem_append.mp hc with h | h
    · exact Or.inr (natDigits_chars _ c h)
    · rcases List.mem_cons.mp h with rfl | h2
      · exact Or.inl rfl
      · rcases padZeros_chars h2 with rfl | h3
        · exact Or.inr ⟨0, rfl⟩
        · exact Or.inr (natDigits_chars _ c h3)

theorem cellStr_separator_free {x : Cell} (h : goodCell x = true) :
    ',' ∉ cellStr x ∧ '\n' ∉ cellStr x := by
  cases x with
  | str s =>
    unfold goodCell strCellOK at h
    rw [Bool.and_eq_true_iff] at h
    rcases h with ⟨h123, _⟩
    rw [Bool.and_eq_true_iff] at h123
    rcases h123 with ⟨h12, h3⟩
    rw [Bool.and_eq_true_iff] at h12
    rcases h12 with ⟨_, h2⟩
    constructor
    · rw [Bool.not_eq_true'] at h2
      exact of_decide_eq_false h2
    · rw [Bool.not_eq_true'] at h3
      exact of_decide_eq_false h3
  | num q =>
    unfold goodCell at h
    rw [Bool.and_eq_true_iff] at h
    rcases h with ⟨h01, hsome⟩
    rw [Bool.and_eq_true_iff] at h01
    rcases h01 with ⟨h0, hpos⟩
    have h0q : (0 : ℚ) ≤ q := of_decide_eq_true h0
    rcases Option.isSome_iff_exists.mp hsome with ⟨k, hk⟩
    have hcs : cellStr (Cell.num q) = posRatStr q := by
      rw [show cellStr (Cell.num q) = if q < 0 then '-' :: floatStr (-q) else floatStr q
        from rfl, if_neg (not_lt.mpr h0q),
        show floatStr q = if printsPositional q then posRatStr q else [] from rfl,
        if_pos hpos]
    rw [hcs]
    constructor
    · intro hm
      rcases posRatStr_chars hk ',' hm with he | ⟨d, hd⟩
      · exact absurd he (by decide)
      · exact (digitChar_props d).2.2.2.1 hd.symm
    · intro hm
      rcases posRatStr_chars hk '\n' hm with he | ⟨d, hd⟩
      · exact absurd he (by decide)
      · exact (digitChar_props d).2.2.2.2 hd.symm

theorem parseCell_cellStr {x : Cell} (h : goodCell x = true) :
    parseCell (cellStr x) = x := by
  cases x with
  | str s => exact parseCell_good_str s h
  | num q =>
    unfold goodCell at h
    rw [Bool.and_eq_true_iff] at h
    rcases h with ⟨h01, hsome⟩
    rw [Bool.and_eq_true_iff] at h01
    rcases h01 with ⟨h0, hpos⟩
    have h0q : (0 : ℚ) ≤ q := of_decide_eq_true h0
    rcases Option.isSome_iff_exists.mp hsome with ⟨k, hk⟩
    have hcs : cellStr (Cell.num q) = posRatStr q := by
      rw [show cellStr (Cell.num q) = if q < 0 then '-' :: floatStr (-q) else floatStr q
        from rfl, if_neg (not_lt.mpr h0q),
        show floatStr q = if printsPositional q then posRatStr q else [] from rfl,
        if_pos hpos]
    rw [hcs]
    exact parseCell_posRatStr q h0q hk

/-- The amendment of claim C9 that the code supports: the round-trip
reproduces a table when every row is non-empty and every field either is a
trimmed string containing no comma or newline that the reader does not
classify as numeric, or is a non-negative number that Python prints
positionally (zero or in [1e-4, 1e16)) and that has a finite decimal
expansion. The unrestricted claim is false (see the counterexample): a
string field containing a comma, a newline, surrounding whitespace, or text
that parses as a non-negative decimal, any negative number, and any value
Python prints in scientific notation (at least 1e16, or positive and below
1e-4 — written as text like '1e+16' that reads back as a plain string),
are not reproduced. -/
theorem C9_amended_roundtrip (table : List (List Cell))
    (h : ∀ row ∈ table, row ≠ [] ∧ ∀ x ∈ row, goodCell x = true) :
    read_csv (write_csv table) true = table := by
  induction table with
  | nil => rfl
  | cons row rest ih =>
    have hrow := h row (List.mem_cons_self row rest)
    have hrest : ∀ r ∈ rest, r ≠ [] ∧ ∀ x ∈ r, goodCell x = true :=
      fun r hr => h r (List.mem_cons_of_mem row hr)
    have hwc : write_csv (row :: rest) =
        joinCommas (row.map cellStr) ++ '\n' :: write_csv rest := by
      show (joinCommas (row.map cellStr) ++ ['\n']) ++ write_csv rest = _
      rw [List.append_assoc]
      rfl
    have hnl : '\n' ∉ joinCommas (row.map cellStr) := by
      apply no_newline_joinCommas
      intro part hp
      rcases List.mem_map.mp hp with ⟨x, hx, rfl⟩
      exact (cellStr_separator_free (hrow.2 x hx)).2
    have hparts : splitCommas (joinCommas (row.map cellStr)) = row.map cellStr := by
      apply joinCommas_split
      · intro hc
        exact hrow.1 (List.map_eq_nil_iff.mp hc)
      · intro part hp
        rcases List.mem_map.mp hp with ⟨x, hx, rfl⟩
        exact (cellStr_separator_free (hrow.2 x hx)).1
    have hcells : (row.map cellStr).map parseCell = row := by
      rw [List.map_map]
      have hid : ∀ x ∈ row, (parseCell ∘ cellStr) x = x :=
        fun x hx => parseCell_cellStr (hrow.2 x hx)
      rw [List.map_congr_left hid]
      simp
    rw [read_csv_true, hwc, pyLines_append _ _ hnl, List.map_cons, hparts, hcells,
      ← read_csv_true, ih hrest]

/-- Witness for the amended C9 on a concrete table of good string fields. -/
theorem C9_amended_roundtrip_witness :
    read_csv (write_csv [[Cell.str ['a', 'b'], Cell.str ['c']]]) true =
      [[Cell.str ['a', 'b'], Cell.str ['c']]] :=
  C9_amended_roundtrip [[Cell.str ['a', 'b'], Cell.str ['c']]] (by decide)
